import Mathlib

/-! # ARM crossystem: property resolver and non-volatile context accessor

A shallow embedding of `host/arch/arm/lib/crossystem_arch.c` and of the
comparison and copy functions of `common/utility_stub.c`.  The C functions
become Lean functions that keep their C names.  Everything outside the
process (the device-tree pseudo file system, sysfs, the GPIO control files,
the eMMC block device and the answers the kernel gives to system calls) is
gathered in one record, `World`, which is passed explicitly and returned
whenever a function changes it.

Conventions

* a byte is a `Nat` (only its value modulo 256 is used where it is decoded);
* a C `int` is an `Int` in the range of `toInt32`; the places where the C code
  computes on `int`s wrap with `toInt32`;
* a C string is a Lean `String`, a byte buffer is a `List Nat`, and the
  512-byte scratch sector is a function from index to byte;
* a result of `none` from the two NV accessors stands for an access outside
  the scratch sector (undefined behaviour in C);
* `ReadFileInt`, which the source file calls and does not define, is not
  modelled: what it yields for the files the code reads is a field of `World`;
* allocation is modelled where the code tests it (`malloc` in
  `ReadFdtBlock`); `free` and the allocation inside `strdup` are not.
-/

namespace CrosSystemArm

/-! ## Constants of the source file -/

/-- Base name for firmware FDT files. -/
def FDT_BASE_PATH : String := "/proc/device-tree/firmware/chromeos"

/-- Path to the compatible FDT entry. -/
def FDT_COMPATIBLE_PATH : String := "/proc/device-tree/compatible"

/-- Generic failure status. -/
def E_FAIL : Int := -1

/-- File operation failure status. -/
def E_FILEOP : Int := -2

/-- Allocation failure status. -/
def E_MEM : Int := -3

/-- Size of the file name buffers. -/
def FNAME_SIZE : Nat := 80

/-- Size of a sector of the block device. -/
def SECTOR_SIZE : Nat := 512

/-- Number of mmcblk device indices that are probed. -/
def MAX_NMMCBLK : Nat := 9

/-- One row of the platform family table. -/
structure PlatformFamily where
  /-- Last string in FDT compatible entry. -/
  compatible_string : String
  /-- String to return. -/
  platform_string : String
  deriving DecidableEq, Repr

/-- Array of platform family names (the terminating NULL entry is the end of
the list). -/
def platform_family_array : List PlatformFamily :=
  [ ⟨"nvidia,tegra250", "Tegra2"⟩,
    ⟨"nvidia,tegra20", "Tegra2"⟩,
    ⟨"ti,omap4", "OMAP4"⟩,
    ⟨"ti,omap3", "OMAP3"⟩,
    ⟨"samsung,exynos4210", "EXYNOS4"⟩,
    ⟨"samsung,exynos5250", "EXYNOS5"⟩ ]

/-! ## Machine integers -/

/-- Value of a C `int` (32 bits, two's complement) holding the integer `x`
after wrap-around. -/
def toInt32 (x : Int) : Int := (x + 2147483648) % 4294967296 - 2147483648

/-- Value of `ntohl` on the 32-bit word whose bytes, in memory order, are the
first four bytes of `bs` (a missing byte counts as 0). -/
def ntohl (bs : List Nat) : Nat :=
  (bs.getD 0 0 % 256) * 16777216 + (bs.getD 1 0 % 256) * 65536
    + (bs.getD 2 0 % 256) * 256 + (bs.getD 3 0 % 256)

/-! ## The world outside the process -/

/-- An operation issued to the block device layer. -/
inductive DevOp where
  | open (dev : Int) (rdwr : Bool)
  | lseek (fd : Int) (off : Int)
  | read (fd : Int)
  | write (fd : Int)
  | flush (fd : Int)
  | close (fd : Int)
  deriving DecidableEq, Repr

/-- An operation issued to the GPIO control files. -/
inductive GpioOp where
  | readValue (gpio : Nat)
  | exportOpen
  | exportWrite (gpio : Nat)
  deriving DecidableEq, Repr

/-- An open file description of the block device: the device index it was
opened on and its file position. -/
structure FileDesc where
  dev : Int
  pos : Nat
  deriving DecidableEq, Repr

/-- Everything outside the process. -/
structure World where
  /-- Content of the records of the property store, by full path; `none`
  when the path does not exist (it can then neither be opened nor found by
  `stat`). -/
  files : String → Option (List Nat)
  /-- Whether `malloc` fails. -/
  mallocFails : Bool
  /-- What `ReadFileInt` yields for `/sys/block/mmcblk<i>/removable`
  (`-1` when the file cannot be read). -/
  mmcRemovable : Nat → Int
  /-- What `ReadFileInt` yields for the value file of a GPIO now. -/
  gpioValue : Nat → Int
  /-- Whether the GPIO export control file can be opened for writing. -/
  exportOpens : Bool
  /-- What `ReadFileInt` yields for the value file of a GPIO once the GPIO
  number has been written to the export control file. -/
  gpioExported : Nat → Int
  /-- GPIO file operations issued so far. -/
  gpioLog : List GpioOp
  /-- Content of the block devices: device index, byte address, byte. -/
  disk : Int → Nat → Nat
  /-- Size of the block devices in bytes, by device index. -/
  diskSize : Int → Nat
  /-- Indeterminate initial content of the automatic `sector` array. -/
  stack : Nat → Nat
  /-- Answer of the kernel to `open`: the new descriptor, or `none` when the
  call fails (the C call then returns -1). -/
  openFd : Option Nat
  /-- Answer of the kernel to `read`: the number of bytes it can deliver from
  the file position (0 at the end of the device; negative: the call fails with
  -1).  Every answer is covered, whatever the size of the device. -/
  readRes : Int
  /-- Answer of the kernel to `write`: the number of bytes it can accept at the
  file position (negative: the call fails with -1).  Every answer is covered,
  whatever the size of the device. -/
  writeRes : Int
  /-- Answer of the kernel to the flush `ioctl` (negative: failure). -/
  flushRes : Int
  /-- Table of open file descriptions. -/
  fds : Int → Option FileDesc
  /-- Block device operations issued so far. -/
  log : List DevOp

/-- Result of `snprintf(filename, sizeof(filename), ...)`: the formatted text
cut to `FNAME_SIZE - 1` characters. -/
def snprintfName (formatted : String) : String :=
  String.mk (formatted.toList.take (FNAME_SIZE - 1))

/-- Modelled from the spec: `StrCopy`, the bounded string-copy primitive the
core takes from its utility library (its definition is not among the source
files).  The destination receives the source cut to `dest_size - 1`
characters. -/
def StrCopy (src : String) (dest_size : Int) : String :=
  String.mk (src.toList.take (dest_size - 1).toNat)

/-- Number of items `fread(ptr, size, nmemb, f)` reports on a stream with
`avail` bytes left: by the C standard it is 0 when `size` is 0. -/
def freadItems (avail size nmemb : Nat) : Nat :=
  if size = 0 then 0 else min nmemb (avail / size)

/-! ## Boot device locator -/

/-- The function `FindEmmcDev`: the first index below `MAX_NMMCBLK` whose
removable indicator reads 0, else `E_FAIL`. -/
def FindEmmcDev (w : World) : Int :=
  match (List.range MAX_NMMCBLK).find? (fun mmcblk => w.mmcRemovable mmcblk == 0) with
  | some mmcblk => (mmcblk : Int)
  | none => E_FAIL

/-! ## Property store reader -/

/-- The function `ReadFdtValue`: status and, on success, the value stored
through `value` (its only caller passes a non-null `value`). -/
def ReadFdtValue (w : World) (property : String) : Int × Option Int :=
  let filename := snprintfName (FDT_BASE_PATH ++ "/" ++ property)
  match w.files filename with
  | none => (E_FILEOP, none)
  | some content =>
    -- `data` starts as 0 and `fread` fills at most 4 of its bytes
    let data := content.take 4
    (0, some (toInt32 (ntohl data)))

/-- The function `ReadFdtBool`: 1 when `stat` finds the record, else 0. -/
def ReadFdtBool (w : World) (property : String) : Int :=
  let filename := snprintfName (FDT_BASE_PATH ++ "/" ++ property)
  match w.files filename with
  | some _ => 1
  | none => 0

/-- The function `ReadFdtInt`: the value of the record, `E_FAIL` when
`ReadFdtValue` fails. -/
def ReadFdtInt (w : World) (property : String) : Int :=
  let r := ReadFdtValue w property
  if r.1 ≠ 0 then E_FAIL else r.2.getD 0

/-- The file name `ReadFdtBlock` builds: a property that starts with `/` is
taken as it is, any other is looked up under `FDT_BASE_PATH`. -/
def blockFileName (property : String) : String :=
  if property.toList.head? = some '/' then StrCopy property FNAME_SIZE
  else snprintfName (FDT_BASE_PATH ++ "/" ++ property)

/-- The function `ReadFdtBlock`: the status, and on success the buffer stored
through `block` (the record followed by one 0 byte) with the record size.
`blockPtr` tells whether the `block` argument is non-null. -/
def ReadFdtBlock (w : World) (property : String) (blockPtr : Bool) :
    Int × Option (List Nat × Nat) :=
  if !blockPtr then (E_FAIL, none) else
  let filename := blockFileName property
  match w.files filename with
  | none => (E_FILEOP, none)
  | some content =>
    let property_size := content.length
    if w.mallocFails then (E_MEM, none) else
    -- data[property_size] = 0, then the record is read in front of it
    let data := content ++ [0]
    if 1 ≠ freadItems property_size property_size 1 then (E_FILEOP, none)
    else (0, some (data, property_size))

/-- The C string held by a byte buffer: the bytes in front of its first 0. -/
def cstringOf (data : List Nat) : String :=
  String.mk ((data.takeWhile (fun b => b != 0)).map Char.ofNat)

/-- The function `ReadFdtString`: the buffer of `ReadFdtBlock` seen as a C
string, or `none` (NULL). -/
def ReadFdtString (w : World) (property : String) : Option String :=
  match (ReadFdtBlock w property true).2 with
  | some (data, _) => some (cstringOf data)
  | none => none

/-! ## Platform family classifier -/

/-- Bytes of a C string constant. -/
def cstr (s : String) : List Nat := s.toList.map Char.toNat

/-- The C string that starts at index `s` of the buffer `mem`. -/
def cstrAt (mem : List Nat) (s : Nat) : List Nat :=
  (mem.drop s).takeWhile (fun b => b != 0)

/-- The inner `for` loop of `ReadFdtPlatformFamily`: the first table row
whose `compatible_string` compares equal (`strcmp`) to `str`. -/
def matchFamily (str : List Nat) : Option PlatformFamily :=
  platform_family_array.find? (fun p => str == cstr p.compatible_string)

/-- The `while` loop of `ReadFdtPlatformFamily`, from the offset `s`. -/
def familyWalk (compat : List Nat) (size : Nat) (s : Nat) : Option String :=
  if s < size then
    let slen := (cstrAt compat s).length
    match matchFamily (cstrAt compat s) with
    | some p => some p.platform_string
    | none => familyWalk compat size (s + slen + 1)
  else none
termination_by size - s

/-- The body of `ReadFdtPlatformFamily` once the block is read: `data` is the
buffer (`size` bytes and the extra 0 byte). -/
def classifyBuffer (data : List Nat) (size : Nat) : Option String :=
  let compat := if size > 0 then data.set (size - 1) 0 else data
  familyWalk compat size 0

/-- The function `ReadFdtPlatformFamily`: the family name, or `none` (NULL). -/
def ReadFdtPlatformFamily (w : World) : Option String :=
  let r := ReadFdtBlock w FDT_COMPATIBLE_PATH true
  if r.1 ≠ 0 then none else
  match r.2 with
  | some (data, size) => classifyBuffer data size
  | none => none

/-! ## Switch / GPIO resolver -/

/-- The function `VbGetGpioStatus`: the value file is read; when it yields -1
the GPIO number is written to the export control file and the value file is
read once more. -/
def VbGetGpioStatus (w : World) (gpio_number : Nat) : Int × World :=
  let value := w.gpioValue gpio_number
  let w1 := { w with gpioLog := w.gpioLog ++ [GpioOp.readValue gpio_number] }
  if value = -1 then
    -- try exporting the GPIO
    let w2 := { w1 with gpioLog := w1.gpioLog ++ [GpioOp.exportOpen] }
    if !w.exportOpens then (-1, w2) else
    let w3 := { w2 with
      gpioValue := Function.update w2.gpioValue gpio_number (w2.gpioExported gpio_number),
      gpioLog := w2.gpioLog ++ [GpioOp.exportWrite gpio_number] }
    -- try re-reading the GPIO value
    (w3.gpioValue gpio_number,
      { w3 with gpioLog := w3.gpioLog ++ [GpioOp.readValue gpio_number] })
  else (value, w1)

/-- The function `VbGetVarGpio`: 2 when the descriptor cannot be read or is
not 12 bytes long, else the GPIO status XOR the polarity XOR 1. -/
def VbGetVarGpio (w : World) (name : String) : Int × World :=
  let r := ReadFdtBlock w name true
  match r.2 with
  | none => (2, w)
  | some (prop, proplen) =>
    if r.1 ≠ 0 ∨ proplen ≠ 12 then (2, w) else
    let gpio_num := toInt32 (ntohl (prop.drop 4))
    let polarity := toInt32 (ntohl (prop.drop 8))
    let g := VbGetGpioStatus w (gpio_num % 4294967296).toNat
    (Int.xor (Int.xor g.1 polarity) 1, g.2)

/-! ## Block device system calls -/

/-- Record an operation in the log of the block device layer. -/
def logOp (w : World) (op : DevOp) : World :=
  { w with log := w.log ++ [op] }

/-- The call `open` on `/dev/mmcblk<dev>`. -/
def sysOpen (w : World) (dev : Int) (rdwr : Bool) : Int × World :=
  match w.openFd with
  | none => (-1, logOp w (DevOp.open dev rdwr))
  | some fd =>
    ((fd : Int),
      { logOp w (DevOp.open dev rdwr) with
        fds := Function.update w.fds (fd : Int) (some ⟨dev, 0⟩) })

/-- The call `lseek(fd, off, SEEK_SET)` on a block device: a negative offset
and an offset beyond the end of the device are refused (EINVAL) and leave the
file position where it was; an offset up to and including the size of the
device is accepted.  The callers do not look at the result. -/
def sysLseek (w : World) (fd : Int) (off : Int) : World :=
  match w.fds fd with
  | none => logOp w (DevOp.lseek fd off)
  | some d =>
    { logOp w (DevOp.lseek fd off) with
      fds := Function.update w.fds fd
        (some { d with
          pos := if off < 0 ∨ (w.diskSize d.dev : Int) < off then d.pos else off.toNat }) }

/-- The call `read(fd, buf, count)`: the count returned, the buffer
afterwards, the world afterwards.  The kernel delivers `n` bytes, the smaller
of what it can deliver and `count` (no byte when the call fails). -/
def sysRead (w : World) (fd : Int) (buf : Nat → Nat) (count : Nat) :
    Int × (Nat → Nat) × World :=
  match w.fds fd with
  | none => (-1, buf, logOp w (DevOp.read fd))
  | some d =>
    let n := min w.readRes.toNat count
    (if w.readRes < 0 then -1 else (n : Int),
      (fun i => if i < n then w.disk d.dev (d.pos + i) else buf i),
      { logOp w (DevOp.read fd) with
        fds := Function.update w.fds fd (some { d with pos := d.pos + n }) })

/-- The call `write(fd, buf, count)`: the count returned and the world
afterwards.  The kernel accepts `n` bytes, the smaller of what it can accept
and `count` (no byte when the call fails). -/
def sysWrite (w : World) (fd : Int) (buf : Nat → Nat) (count : Nat) : Int × World :=
  match w.fds fd with
  | none => (-1, logOp w (DevOp.write fd))
  | some d =>
    let n := min w.writeRes.toNat count
    (if w.writeRes < 0 then -1 else (n : Int),
      { logOp w (DevOp.write fd) with
        disk := fun dv a =>
          if dv = d.dev ∧ d.pos ≤ a ∧ a < d.pos + n then buf (a - d.pos) else w.disk dv a,
        fds := Function.update w.fds fd (some { d with pos := d.pos + n }) })

/-- The flush request `ioctl(fd, BLKFLSBUF, 0)`. -/
def sysFlush (w : World) (fd : Int) : Int × World :=
  (w.flushRes, logOp w (DevOp.flush fd))

/-- The call `close(fd)`. -/
def sysClose (w : World) (fd : Int) : World :=
  { logOp w (DevOp.close fd) with fds := Function.update w.fds fd none }

/-- The exit path of both NV accessors: `if (nvctx_fd > 0) close(nvctx_fd)`. -/
def closeOut (w : World) (nvctx_fd : Int) : World :=
  if nvctx_fd > 0 then sysClose w nvctx_fd else w

/-! ## NV context accessor -/

/-- The part of `VbNvContext` the accessors touch: the `raw` array.  Its
length is `sizeof(vnc->raw)`. -/
structure VbNvContext where
  raw : List Nat
  deriving DecidableEq, Repr

/-- The call `Memcpy(vnc->raw, sector + offset, size)`: the bytes read from
the scratch sector, `none` when the range leaves the 512-byte array. -/
def sectorLoad (sector : Nat → Nat) (offset size : Int) : Option (List Nat) :=
  if 0 ≤ offset ∧ 0 ≤ size ∧ offset + size ≤ SECTOR_SIZE then
    some ((List.range size.toNat).map (fun i => sector (offset.toNat + i)))
  else none

/-- The call `Memcpy(sector + offset, vnc->raw, size)`: the scratch sector
afterwards, `none` when the range leaves the 512-byte array. -/
def sectorStore (sector : Nat → Nat) (offset : Int) (raw : List Nat) (size : Int) :
    Option (Nat → Nat) :=
  if 0 ≤ offset ∧ 0 ≤ size ∧ offset + size ≤ SECTOR_SIZE then
    some (fun i =>
      if offset.toNat ≤ i ∧ i < offset.toNat + size.toNat then raw.getD (i - offset.toNat) 0
      else sector i)
  else none

/-- The function `VbReadNvStorage`: status, the context afterwards, the world
afterwards.  The comparison `size != sizeof(vnc->raw)` is made on integers: the array is
far smaller than 2^31 bytes, so the conversion of `size` to `size_t` does not
change its outcome. -/
def VbReadNvStorage (w : World) (vnc : VbNvContext) : Option (Int × VbNvContext × World) :=
  let sector := w.stack
  let lba := ReadFdtInt w "nonvolatile-context-lba"
  let offset := ReadFdtInt w "nonvolatile-context-offset"
  let size := ReadFdtInt w "nonvolatile-context-size"
  let emmc_dev := FindEmmcDev w
  if emmc_dev < 0 then some (E_FAIL, vnc, w) else
  if size ≠ (vnc.raw.length : Int) ∨ toInt32 (size + offset) > SECTOR_SIZE then
    some (E_FAIL, vnc, w)
  else
  let o := sysOpen w emmc_dev false
  let nvctx_fd := o.1
  if nvctx_fd = -1 then some (-1, vnc, closeOut o.2 nvctx_fd) else
  let w2 := sysLseek o.2 nvctx_fd (toInt32 (lba * SECTOR_SIZE))
  let r := sysRead w2 nvctx_fd sector SECTOR_SIZE
  let rv := r.1
  if size ≤ 0 then some (rv, vnc, closeOut r.2.2 nvctx_fd) else
  match sectorLoad r.2.1 offset size with
  | none => none
  | some raw => some (0, { vnc with raw := raw }, closeOut r.2.2 nvctx_fd)

/-- The function `VbWriteNvStorage`: status and the world afterwards. -/
def VbWriteNvStorage (w : World) (vnc : VbNvContext) : Option (Int × World) :=
  let sector := w.stack
  let lba := ReadFdtInt w "nonvolatile-context-lba"
  let offset := ReadFdtInt w "nonvolatile-context-offset"
  let size := ReadFdtInt w "nonvolatile-context-size"
  let emmc_dev := FindEmmcDev w
  if emmc_dev < 0 then some (E_FAIL, w) else
  if size ≠ (vnc.raw.length : Int) ∨ toInt32 (size + offset) > SECTOR_SIZE then
    some (E_FAIL, w)
  else
  let o := sysOpen w emmc_dev true
  let nvctx_fd := o.1
  if nvctx_fd = -1 then some (-1, closeOut o.2 nvctx_fd) else
  let w2 := sysLseek o.2 nvctx_fd (toInt32 (lba * SECTOR_SIZE))
  let r := sysRead w2 nvctx_fd sector SECTOR_SIZE
  if r.1 ≤ 0 then some (r.1, closeOut r.2.2 nvctx_fd) else
  match sectorStore r.2.1 offset vnc.raw size with
  | none => none
  | some sector1 =>
    let w4 := sysLseek r.2.2 nvctx_fd (toInt32 (lba * SECTOR_SIZE))
    let wr := sysWrite w4 nvctx_fd sector1 SECTOR_SIZE
    if wr.1 ≤ 0 then some (wr.1, closeOut wr.2 nvctx_fd) else
    -- must flush buffer cache here to make sure it goes to disk
    let fl := sysFlush wr.2 nvctx_fd
    if fl.1 < 0 then some (fl.1, closeOut fl.2 nvctx_fd) else
    some (0, closeOut fl.2 nvctx_fd)

/-! ## Caller-facing property API -/

/-- The comparison of `strcasecmp` on the characters of two C strings. -/
def strcasecmpChars : List Char → List Char → Int
  | [], [] => 0
  | [], b :: _ => -(b.toLower.toNat : Int)
  | a :: _, [] => (a.toLower.toNat : Int)
  | a :: as, b :: bs =>
    if a.toLower = b.toLower then strcasecmpChars as bs
    else (a.toLower.toNat : Int) - (b.toLower.toNat : Int)

/-- The characters of the C string a `const char*` argument points to: those
in front of the first NUL. -/
def cchars (s : String) : List Char := s.toList.takeWhile (fun c => c != Char.ofNat 0)

/-- The function `strcasecmp`: 0 exactly when the two C strings are equal up
to the case of their letters. -/
def strcasecmp (a b : String) : Int := strcasecmpChars (cchars a) (cchars b)

/-- The function `VbGetArchPropertyInt`: the value and the world afterwards. -/
def VbGetArchPropertyInt (w : World) (name : String) : Int × World :=
  if strcasecmp name "fmap_base" = 0 then (ReadFdtInt w "fmap-offset", w)
  else if strcasecmp name "devsw_boot" = 0 then (ReadFdtBool w "boot-developer-switch", w)
  else if strcasecmp name "recoverysw_boot" = 0 then (ReadFdtBool w "boot-recovery-switch", w)
  else if strcasecmp name "wpsw_boot" = 0 then (ReadFdtBool w "boot-write-protect-switch", w)
  else if strcasecmp name "devsw_cur" = 0 then VbGetVarGpio w "developer-switch"
  else if strcasecmp name "recoverysw_cur" = 0 then VbGetVarGpio w "recovery-switch"
  else if strcasecmp name "wpsw_cur" = 0 then VbGetVarGpio w "write-protect-switch"
  else if strcasecmp name "recoverysw_ec_boot" = 0 then (0, w)
  else (-1, w)

/-- The function `VbGetArchPropertyString`: the string returned (`none` for NULL) and the
content of `dest` afterwards. -/
def VbGetArchPropertyString (w : World) (name : String) (dest : String) (size : Int) :
    Option String × String :=
  if strcasecmp name "arch" = 0 then (some (StrCopy "arm" size), StrCopy "arm" size) else
  -- properties from fdt
  let prop : Option String :=
    if strcasecmp name "ro_fwid" = 0 then some "readonly-firmware-version"
    else if strcasecmp name "hwid" = 0 then some "hardware-id"
    else if strcasecmp name "fwid" = 0 then some "firmware-version"
    else if strcasecmp name "mainfw_type" = 0 then some "firmware-type"
    else if strcasecmp name "ecfw_act" = 0 then some "active-ec-firmware"
    else if strcasecmp name "ddr_type" = 0 then some "ddr-type"
    else none
  let str0 : Option String :=
    match prop with
    | some p => ReadFdtString w p
    | none => none
  let str : Option String :=
    if strcasecmp name "platform_family" = 0 then ReadFdtPlatformFamily w else str0
  match str with
  | some s => (some (StrCopy s size), StrCopy s size)
  | none => (none, dest)

/-! ## Definitions used to state the properties -/

/-- The 32-bit big-endian value of four bytes. -/
def be32 (b0 b1 b2 b3 : Nat) : Nat := b0 * 16777216 + b1 * 65536 + b2 * 256 + b3

/-- The names `VbGetArchPropertyInt` recognises. -/
def recognizedIntNames : List String :=
  ["fmap_base", "devsw_boot", "recoverysw_boot", "wpsw_boot", "devsw_cur",
   "recoverysw_cur", "wpsw_cur", "recoverysw_ec_boot"]

/-- The names `VbGetArchPropertyString` recognises. -/
def recognizedStringNames : List String :=
  ["arch", "ro_fwid", "hwid", "fwid", "mainfw_type", "ecfw_act", "ddr_type",
   "platform_family"]

/-- Two C strings are equal up to the case of their letters. -/
def caselessEq (a b : String) : Prop :=
  (cchars a).map Char.toLower = (cchars b).map Char.toLower

instance (a b : String) : Decidable (caselessEq a b) := by
  unfold caselessEq
  infer_instance

/-- Full path of a record of the firmware node of the property store. -/
def fdtFile (name : String) : String := FDT_BASE_PATH ++ "/" ++ name

/-- A sample machine: the NV context lives in bytes 8..23 of sector 2 of
the eMMC, which is `mmcblk2`, a device of 1 MiB; the compatible record names
an OMAP4 and the developer switch is GPIO 5 with polarity 1. -/
def w0 : World :=
  { files := fun p =>
      if p = fdtFile "nonvolatile-context-lba" then some [0, 0, 0, 2]
      else if p = fdtFile "nonvolatile-context-offset" then some [0, 0, 0, 8]
      else if p = fdtFile "nonvolatile-context-size" then some [0, 0, 0, 16]
      else if p = FDT_COMPATIBLE_PATH then
        some (cstr "ti,omap4" ++ [0] ++ cstr "nvidia,tegra20" ++ [0])
      else if p = fdtFile "developer-switch" then some [0, 0, 0, 0, 0, 0, 0, 5, 0, 0, 0, 1]
      else none,
    mallocFails := false,
    mmcRemovable := fun i => if i = 2 then 0 else 1,
    gpioValue := fun _ => 1,
    exportOpens := true,
    gpioExported := fun _ => 0,
    gpioLog := [],
    disk := fun _ _ => 0,
    diskSize := fun _ => 1048576,
    stack := fun _ => 170,
    openFd := some 3,
    readRes := 512,
    writeRes := 512,
    flushRes := 0,
    fds := fun _ => none,
    log := [] }

/-- The sample machine with a property store that holds one record, the
empty record `hardware-id`. -/
def wEmptyRecord : World :=
  { w0 with files := fun p => if p = fdtFile "hardware-id" then some [] else none }

/-- The NUL-terminated strings of a blob, in blob order: the blob is cut behind
each 0 byte, and bytes behind the last 0 byte are not a NUL-terminated
string. -/
def nulTerminatedStrings : List Nat → List (List Nat)
  | [] => []
  | b :: bs =>
    if b = 0 then [] :: nulTerminatedStrings bs
    else
      match nulTerminatedStrings bs with
      | [] => []
      | s :: rest => (b :: s) :: rest

/-- The blob with its last byte overwritten by 0. -/
def forceLast (blob : List Nat) : List Nat := blob.set (blob.length - 1) 0

/-- The family name of the first string of the list that equals a
`compatible_string` of the table. -/
def firstFamily (strs : List (List Nat)) : Option String :=
  strs.findSome? (fun t => (matchFamily t).map PlatformFamily.platform_string)

/-- The sample machine with another compatible record. -/
def withCompatible (blob : List Nat) : World :=
  { w0 with files := fun p => if p = FDT_COMPATIBLE_PATH then some blob else none }

/-- The logical block address the property store gives for the NV context. -/
def nvLba (w : World) : Int := ReadFdtInt w "nonvolatile-context-lba"

/-- The offset inside the sector the property store gives for the NV
context. -/
def nvOffset (w : World) : Int := ReadFdtInt w "nonvolatile-context-offset"

/-- The size the property store gives for the NV context. -/
def nvSize (w : World) : Int := ReadFdtInt w "nonvolatile-context-size"

/-- The byte offset handed to `lseek`: `lba * SECTOR_SIZE` computed on
`int`s. -/
def nvSeek (w : World) : Int := toInt32 (nvLba w * SECTOR_SIZE)

/-- The file position after a fresh `open` and the `lseek` to the NV sector: a
negative target and a target beyond the end of the device are refused and
leave the position at 0. -/
def nvPos (w : World) : Nat :=
  if nvSeek w < 0 ∨ (w.diskSize (FindEmmcDev w) : Int) < nvSeek w then 0
  else (nvSeek w).toNat

/-- The scratch sector after the `read` of one sector at the NV position:
the bytes the device delivered, then the indeterminate bytes of the array. -/
def sectorAfterRead (w : World) : Nat → Nat :=
  fun i =>
    if i < min w.readRes.toNat SECTOR_SIZE then w.disk (FindEmmcDev w) (nvPos w + i)
    else w.stack i

/-- The scratch sector `VbWriteNvStorage` hands to `write`: the sector as
read, with the blob stored from index `o`. -/
def sectorToWrite (w : World) (B : List Nat) (o : Nat) : Nat → Nat :=
  fun i => if o ≤ i ∧ i < o + B.length then B.getD (i - o) 0 else sectorAfterRead w i

/-- The file position at which `VbWriteNvStorage` writes: the second `lseek`
goes back to the NV position, and when it is refused the position stays
behind the bytes just read. -/
def nvWritePos (w : World) : Nat :=
  if nvSeek w < 0 ∨ (w.diskSize (FindEmmcDev w) : Int) < nvSeek w then
    nvPos w + min w.readRes.toNat SECTOR_SIZE
  else (nvSeek w).toNat

/-- The content of the block devices after the `write` of
`VbWriteNvStorage`. -/
def diskAfterWrite (w : World) (B : List Nat) (o : Nat) : Int → Nat → Nat :=
  fun dv a =>
    if dv = FindEmmcDev w ∧ nvWritePos w ≤ a ∧
        a < nvWritePos w + min w.writeRes.toNat SECTOR_SIZE
    then sectorToWrite w B o (a - nvWritePos w)
    else w.disk dv a

/-- A blob of 16 bytes. -/
def sampleBlob : List Nat := [1, 2, 3, 4, 5, 6, 7, 8, 9, 10, 11, 12, 13, 14, 15, 16]

/-- The sample machine with the block address record holding 2049: the NV
sector would start at byte 1049088, one sector beyond the end of the device
of 1048576 bytes. -/
def wFarLba : World :=
  { w0 with files := fun p =>
      if p = fdtFile "nonvolatile-context-lba" then some [0, 0, 8, 1]
      else if p = fdtFile "nonvolatile-context-offset" then some [0, 0, 0, 8]
      else if p = fdtFile "nonvolatile-context-size" then some [0, 0, 0, 16]
      else none }

/-- The sample machine with a device whose `read` reports end of device
(count 0) at the NV sector. -/
def wReadEof : World := { w0 with readRes := 0 }

/-- The sample machine with a device that delivers 4 bytes to `read`. -/
def wShortRead : World := { w0 with readRes := 4 }

/-- The sample machine with the offset record holding 0x7fffffff. -/
def wOverflow : World :=
  { w0 with files := fun p =>
      if p = fdtFile "nonvolatile-context-lba" then some [0, 0, 0, 2]
      else if p = fdtFile "nonvolatile-context-offset" then some [127, 255, 255, 255]
      else if p = fdtFile "nonvolatile-context-size" then some [0, 0, 0, 16]
      else none }

/-! ## Utility functions (`common/utility_stub.c`)

A pointer is the function that gives the byte at each index from the place it
points to, or, where the code moves it, an address into a memory. -/

/-- The state of a stateful copy.  The header that declares the structure is
not among the source files; the fields are those the functions use:
`remaining_buf` is the address of the next byte, `remaining_len` the number of
bytes left, and `overrun` the flag that holds 0 or 1. -/
structure MemcpyState where
  remaining_buf : Nat
  remaining_len : Nat
  overrun : Bool
  deriving DecidableEq, Repr

/-- The loop of `SafeMemcmp`: `n` pairs are left, `i` is the index the two
pointers have reached, `m` is `match`. -/
def SafeMemcmpLoop (us1 us2 : Nat → Nat) : Nat → Nat → Int → Int
  | 0, _, m => m
  | n + 1, i, m => SafeMemcmpLoop us1 us2 n (i + 1) (if us1 i ≠ us2 i then 1 else m)

/-- The function `SafeMemcmp`. -/
def SafeMemcmp (s1 s2 : Nat → Nat) (n : Nat) : Int :=
  SafeMemcmpLoop s1 s2 n 0 0

/-- The loop of `SafeMemcmp` with a record of the indices whose byte pair it
compares, in the order of the comparisons. -/
def SafeMemcmpExamined (us1 us2 : Nat → Nat) : Nat → Nat → Int → Int × List Nat
  | 0, _, m => (m, [])
  | n + 1, i, m =>
    let r := SafeMemcmpExamined us1 us2 n (i + 1) (if us1 i ≠ us2 i then 1 else m)
    (r.1, i :: r.2)

/-- The function `StatefulMemcpy` on the memory `mem`: the bytes stored in
`dst` when `dst` is returned, `none` when NULL is returned (nothing is stored
then), and the state afterwards. -/
def StatefulMemcpy (mem : Nat → Nat) (state : MemcpyState) (len : Nat) :
    Option (List Nat) × MemcpyState :=
  if state.overrun then (none, state)
  else if len > state.remaining_len then (none, { state with overrun := true })
  else
    (some ((List.range len).map (fun i => mem (state.remaining_buf + i))),
      { state with
        remaining_buf := state.remaining_buf + len,
        remaining_len := state.remaining_len - len })

/-- The function `StatefulMemcpy_r` on the memory `mem`: whether `src` is
returned (NULL otherwise), the state afterwards and the memory afterwards. -/
def StatefulMemcpy_r (mem : Nat → Nat) (state : MemcpyState) (src : Nat → Nat) (len : Nat) :
    Bool × MemcpyState × (Nat → Nat) :=
  if state.overrun then (false, state, mem)
  else if len > state.remaining_len then (false, { state with overrun := true }, mem)
  else
    (true,
      { state with
        remaining_buf := state.remaining_buf + len,
        remaining_len := state.remaining_len - len },
      fun a =>
        if state.remaining_buf ≤ a ∧ a < state.remaining_buf + len
        then src (a - state.remaining_buf) else mem a)

/-- A run of `StatefulMemcpy` calls with the lengths `lens`: the results of the
calls, in order, and the last state. -/
def StatefulMemcpyRun (mem : Nat → Nat) :
    MemcpyState → List Nat → List (Option (List Nat)) × MemcpyState
  | state, [] => ([], state)
  | state, len :: lens =>
    let r := StatefulMemcpy mem state len
    let rest := StatefulMemcpyRun mem r.2 lens
    (r.1 :: rest.1, rest.2)

/-! ## More definitions used to state the properties -/

/-- The `while` loop of `ReadFdtPlatformFamily` with a record of the strings
it examines: the offset at which each starts and its length. -/
def familyWalkExamined (compat : List Nat) (size : Nat) (s : Nat) :
    Option String × List (Nat × Nat) :=
  if s < size then
    let slen := (cstrAt compat s).length
    match matchFamily (cstrAt compat s) with
    | some p => (some p.platform_string, [(s, slen)])
    | none =>
      let r := familyWalkExamined compat size (s + slen + 1)
      (r.1, (s, slen) :: r.2)
  else (none, [])
termination_by size - s

/-- The buffer `ReadFdtPlatformFamily` walks for a blob: the blob, the extra 0
byte of `ReadFdtBlock`, and the last byte of the blob overwritten by 0. -/
def walkedBuffer (blob : List Nat) : List Nat :=
  if blob.length > 0 then (blob ++ [0]).set (blob.length - 1) 0 else blob ++ [0]

/-- The sample machine on which `open` yields the descriptor 0. -/
def wFdZero : World := { w0 with openFd := some 0 }

/-- The sample machine without the record `nonvolatile-context-offset`:
`ReadFdtInt` then yields `E_FAIL`, that is -1, for the offset. -/
def wNoOffset : World :=
  { w0 with files := fun p =>
      if p = fdtFile "nonvolatile-context-lba" then some [0, 0, 0, 2]
      else if p = fdtFile "nonvolatile-context-size" then some [0, 0, 0, 16]
      else none }

/-- The sample machine with a property store that holds one record,
`fmap-offset`, of two bytes. -/
def wShortRecord : World :=
  { w0 with files := fun p => if p = fdtFile "fmap-offset" then some [18, 52] else none }

/-- The operations a call added to the log of the block device layer. -/
def newOps (before after : World) : List DevOp := after.log.drop before.log.length

/-- The GPIO operations a call added to the GPIO log. -/
def newGpioOps (before after : World) : List GpioOp :=
  after.gpioLog.drop before.gpioLog.length

/-! ## Boot device locator: theorems -/
theorem find?_range_eq_some (p : Nat → Bool) (n i : Nat) :
    (List.range n).find? p = some i ↔ i < n ∧ p i = true ∧ ∀ j < i, p j = false := by
  induction n generalizing i with
  | zero => simp
  | succ n ih =>
    rw [List.range_succ, List.find?_append]
    cases h : (List.range n).find? p with
    | some k =>
      have h' := h
      rw [ih k] at h'
      have e : (some k).or (List.find? p [n]) = some k := rfl
      rw [e, ← h, ih i]
      constructor
      · rintro ⟨h1, h2, h3⟩; exact ⟨by omega, h2, h3⟩
      · rintro ⟨h1, h2, h3⟩
        refine ⟨?_, h2, h3⟩
        by_contra hc
        have hk : k < i := by omega
        have := h3 k hk
        simp [h'.2.1] at this
    | none =>
      have e : (none : Option Nat).or (List.find? p [n]) = List.find? p [n] := rfl
      rw [e]
      rw [List.find?_eq_none] at h
      simp only [List.mem_range] at h
      by_cases hp : p n = true
      · simp only [List.find?_cons, hp, List.find?_nil]
        constructor
        · intro e; injection e with e; subst e
          exact ⟨by omega, hp, fun j hj => by simpa using h j hj⟩
        · rintro ⟨h1, h2, h3⟩
          congr 1
          by_contra hc
          have hlt : i < n := by omega
          exact (h i hlt) h2
      · simp only [Bool.not_eq_true] at hp
        simp only [List.find?_cons, hp, List.find?_nil]
        constructor
        · intro e; cases e
        · rintro ⟨h1, h2, h3⟩
          have : i ≠ n := by rintro rfl; simp [hp] at h2
          exact absurd h2 (h i (by omega))

theorem find?_congr_mem {α : Type} (p q : α → Bool) (l : List α)
    (h : ∀ x ∈ l, p x = q x) : l.find? p = l.find? q := by
  induction l with
  | nil => rfl
  | cons a t ih =>
    simp only [List.find?_cons, h a (List.mem_cons_self a t)]
    rw [ih (fun x hx => h x (List.mem_cons_of_mem a hx))]

theorem find?_range_eq_none (p : Nat → Bool) (n : Nat) :
    (List.range n).find? p = none ↔ ∀ j < n, p j = false := by
  rw [List.find?_eq_none]
  simp

/-- C7: `FindEmmcDev` returns the smallest index below `MAX_NMMCBLK` whose
removable indicator reads exactly 0, and `E_FAIL` when no index in that range
reads 0; the result depends only on the indicator values of the indices
0..8, and the indicators 1, 1, 0, 1 give index 2. -/
theorem FindEmmcDev_first_nonremovable (w : World) :
    (∀ i : Nat, FindEmmcDev w = (i : Int) ↔
      i < MAX_NMMCBLK ∧ w.mmcRemovable i = 0 ∧ ∀ j < i, w.mmcRemovable j ≠ 0) ∧
    (FindEmmcDev w = E_FAIL ↔ ∀ j < MAX_NMMCBLK, w.mmcRemovable j ≠ 0) ∧
    (∀ w2 : World, (∀ i < MAX_NMMCBLK, w2.mmcRemovable i = w.mmcRemovable i) →
      FindEmmcDev w2 = FindEmmcDev w) ∧
    (∀ w2 : World, (List.range 4).map w2.mmcRemovable = [1, 1, 0, 1] → FindEmmcDev w2 = 2) := by
  have key : ∀ (v : World) (i : Nat), FindEmmcDev v = (i : Int) ↔
      i < MAX_NMMCBLK ∧ v.mmcRemovable i = 0 ∧ ∀ j < i, v.mmcRemovable j ≠ 0 := by
    intro v i
    unfold FindEmmcDev
    cases h : (List.range MAX_NMMCBLK).find? (fun mmcblk => v.mmcRemovable mmcblk == 0) with
    | some k =>
      rw [find?_range_eq_some] at h
      simp only [beq_iff_eq, beq_eq_false_iff_ne, ne_eq] at h
      dsimp only
      constructor
      · intro e
        have : k = i := by exact_mod_cast e
        subst this; exact h
      · rintro ⟨h1, h2, h3⟩
        have : k = i := by
          rcases Nat.lt_trichotomy k i with hlt | heq | hgt
          · exact absurd h.2.1 (h3 k hlt)
          · exact heq
          · exact absurd h2 (h.2.2 i hgt)
        simp [this]
    | none =>
      rw [find?_range_eq_none] at h
      simp only [beq_eq_false_iff_ne, ne_eq] at h
      dsimp only
      constructor
      · intro e; simp only [E_FAIL] at e; omega
      · rintro ⟨h1, h2, _⟩; exact absurd h2 (h i h1)
  have keyFail : ∀ v : World, FindEmmcDev v = E_FAIL ↔ ∀ j < MAX_NMMCBLK, v.mmcRemovable j ≠ 0 := by
    intro v
    unfold FindEmmcDev
    cases h : (List.range MAX_NMMCBLK).find? (fun mmcblk => v.mmcRemovable mmcblk == 0) with
    | some k =>
      rw [find?_range_eq_some] at h
      simp only [beq_iff_eq] at h
      dsimp only
      constructor
      · intro e; simp only [E_FAIL] at e; omega
      · intro hall; exact absurd h.2.1 (hall k h.1)
    | none =>
      rw [find?_range_eq_none] at h
      simp only [beq_eq_false_iff_ne, ne_eq] at h
      simp only [true_iff]
      exact h
  refine ⟨key w, keyFail w, ?_, ?_⟩
  · intro w2 hagree
    unfold FindEmmcDev
    have : (List.range MAX_NMMCBLK).find? (fun mmcblk => w2.mmcRemovable mmcblk == 0)
        = (List.range MAX_NMMCBLK).find? (fun mmcblk => w.mmcRemovable mmcblk == 0) := by
      apply find?_congr_mem
      intro x hx
      rw [hagree x (List.mem_range.mp hx)]
    rw [this]
  · intro w2 h
    have h0 : w2.mmcRemovable 0 = 1 := by simpa [List.range_succ] using congrArg (fun l => l.getD 0 7) h
    have h1 : w2.mmcRemovable 1 = 1 := by simpa [List.range_succ] using congrArg (fun l => l.getD 1 7) h
    have h2 : w2.mmcRemovable 2 = 0 := by simpa [List.range_succ] using congrArg (fun l => l.getD 2 7) h
    have := (key w2 2).mpr ⟨by decide, h2, fun j hj => by
      interval_cases j
      · rw [h0]; decide
      · rw [h1]; decide⟩
    exact_mod_cast this

/-- Witness for C7 on the sample machine, whose only non-removable device is
`mmcblk2`. -/
theorem FindEmmcDev_first_nonremovable_witness :
    (List.range 4).map w0.mmcRemovable = [1, 1, 0, 1] ∧ FindEmmcDev w0 = 2 :=
  ⟨by decide, (FindEmmcDev_first_nonremovable w0).2.2.2 w0 (by decide)⟩

/-! ## Switch / GPIO resolver: theorems -/
theorem ntohl_cons4 (b0 b1 b2 b3 : Nat) (rest : List Nat)
    (h0 : b0 < 256) (h1 : b1 < 256) (h2 : b2 < 256) (h3 : b3 < 256) :
    ntohl (b0 :: b1 :: b2 :: b3 :: rest) = be32 b0 b1 b2 b3 := by
  simp only [ntohl, be32, List.getD_cons_zero, List.getD_cons_succ,
    Nat.mod_eq_of_lt h0, Nat.mod_eq_of_lt h1, Nat.mod_eq_of_lt h2, Nat.mod_eq_of_lt h3]

theorem be32_lt (b0 b1 b2 b3 : Nat)
    (h0 : b0 < 256) (h1 : b1 < 256) (h2 : b2 < 256) (h3 : b3 < 256) :
    be32 b0 b1 b2 b3 < 4294967296 := by
  unfold be32
  omega

theorem toInt32_mod_toNat (n : Nat) (h : n < 4294967296) :
    (toInt32 (n : Int) % 4294967296).toNat = n := by
  unfold toInt32
  omega

/-- C8: `VbGetVarGpio` yields 2 when the descriptor record cannot be read
(missing record, failed allocation) or is not exactly 12 bytes long;
otherwise, with the GPIO number and the polarity decoded as the second and
third big-endian 32-bit words, it yields `VbGetGpioStatus(gpio) XOR polarity
XOR 1` for every status value, the -1 sentinel included.  The descriptor
(0, 5, 1) gives 1 at level 1 and 0 at level 0, and for a level and a polarity
in 0..1 the value is in 0..1. -/
theorem VbGetVarGpio_live_value (w : World) (name : String) :
    (w.files (blockFileName name) = none → VbGetVarGpio w name = (2, w)) ∧
    (w.mallocFails = true → VbGetVarGpio w name = (2, w)) ∧
    (∀ content, w.files (blockFileName name) = some content → content.length ≠ 12 →
      VbGetVarGpio w name = (2, w)) ∧
    (∀ p0 p1 p2 p3 g0 g1 g2 g3 q0 q1 q2 q3 : Nat,
      g0 < 256 → g1 < 256 → g2 < 256 → g3 < 256 →
      q0 < 256 → q1 < 256 → q2 < 256 → q3 < 256 →
      w.mallocFails = false →
      w.files (blockFileName name) = some [p0, p1, p2, p3, g0, g1, g2, g3, q0, q1, q2, q3] →
      VbGetVarGpio w name =
        (Int.xor (Int.xor (VbGetGpioStatus w (be32 g0 g1 g2 g3)).1
            (toInt32 (be32 q0 q1 q2 q3))) 1,
          (VbGetGpioStatus w (be32 g0 g1 g2 g3)).2)) ∧
    (∀ level : Int, w.mallocFails = false →
      w.files (blockFileName name) = some [0, 0, 0, 0, 0, 0, 0, 5, 0, 0, 0, 1] →
      w.gpioValue 5 = level → level ≠ -1 →
      (VbGetVarGpio w name).1 = Int.xor (Int.xor level 1) 1 ∧
      (level = 1 → (VbGetVarGpio w name).1 = 1) ∧
      (level = 0 → (VbGetVarGpio w name).1 = 0)) ∧
    (∀ level polarity : Int, (level = 0 ∨ level = 1) → (polarity = 0 ∨ polarity = 1) →
      Int.xor (Int.xor level polarity) 1 = 0 ∨ Int.xor (Int.xor level polarity) 1 = 1) := by
  have hfull : ∀ p0 p1 p2 p3 g0 g1 g2 g3 q0 q1 q2 q3 : Nat,
      g0 < 256 → g1 < 256 → g2 < 256 → g3 < 256 →
      q0 < 256 → q1 < 256 → q2 < 256 → q3 < 256 →
      w.mallocFails = false →
      w.files (blockFileName name) = some [p0, p1, p2, p3, g0, g1, g2, g3, q0, q1, q2, q3] →
      VbGetVarGpio w name =
        (Int.xor (Int.xor (VbGetGpioStatus w (be32 g0 g1 g2 g3)).1
            (toInt32 (be32 q0 q1 q2 q3))) 1,
          (VbGetGpioStatus w (be32 g0 g1 g2 g3)).2) := by
    intro p0 p1 p2 p3 g0 g1 g2 g3 q0 q1 q2 q3 hg0 hg1 hg2 hg3 hq0 hq1 hq2 hq3 hm hf
    have hg : ((toInt32 (ntohl [g0, g1, g2, g3, q0, q1, q2, q3, 0])) % 4294967296).toNat
        = be32 g0 g1 g2 g3 := by
      rw [ntohl_cons4 g0 g1 g2 g3 _ hg0 hg1 hg2 hg3]
      exact toInt32_mod_toNat _ (be32_lt g0 g1 g2 g3 hg0 hg1 hg2 hg3)
    have hq : ntohl [q0, q1, q2, q3, 0] = be32 q0 q1 q2 q3 :=
      ntohl_cons4 q0 q1 q2 q3 _ hq0 hq1 hq2 hq3
    simp only [VbGetVarGpio, ReadFdtBlock, hf, hm, freadItems, List.length_cons,
      List.length_nil, List.drop_succ_cons, List.drop_zero, List.cons_append, List.nil_append]
    simp [hg, hq]
  refine ⟨?_, ?_, ?_, hfull, ?_, ?_⟩
  · intro h
    simp [VbGetVarGpio, ReadFdtBlock, h]
  · intro h
    simp only [VbGetVarGpio, ReadFdtBlock]
    cases hf : w.files (blockFileName name) <;> simp [h]
  · intro content hf hlen
    simp only [VbGetVarGpio, ReadFdtBlock, hf]
    by_cases hm : w.mallocFails = true
    · simp [hm]
    · simp only [Bool.not_eq_true] at hm
      by_cases h0 : content.length = 0
      · simp [hm, freadItems, h0]
      · have : content.length / content.length = 1 := Nat.div_self (by omega)
        simp [hm, freadItems, h0, this, hlen]
  · intro level hm hf hv hne
    have h := hfull 0 0 0 0 0 0 0 5 0 0 0 1 (by decide) (by decide) (by decide) (by decide)
      (by decide) (by decide) (by decide) (by decide) hm hf
    have hs : (VbGetGpioStatus w (be32 0 0 0 5)).1 = level := by
      have : be32 0 0 0 5 = 5 := by simp [be32]
      simp [VbGetGpioStatus, this, hv, hne]
    have hp : toInt32 (be32 0 0 0 1 : Nat) = 1 := by simp [be32, toInt32]
    rw [h, hs, hp]
    refine ⟨rfl, ?_, ?_⟩
    · intro e; subst e; show Int.xor (Int.xor 1 1) 1 = 1; decide
    · intro e; subst e; show Int.xor (Int.xor 0 1) 1 = 0; decide
  · intro level polarity hl hp
    rcases hl with rfl | rfl <;> rcases hp with rfl | rfl <;> decide

/-- Witness for C8 on the sample machine: the developer switch is GPIO 5 with
polarity 1, its line reads 1, and the live value is 1. -/
theorem VbGetVarGpio_live_value_witness :
    w0.files (blockFileName "developer-switch") = some [0, 0, 0, 0, 0, 0, 0, 5, 0, 0, 0, 1] ∧
    w0.gpioValue 5 = 1 ∧ (VbGetVarGpio w0 "developer-switch").1 = 1 :=
  ⟨by decide, by decide,
    ((VbGetVarGpio_live_value w0 "developer-switch").2.2.2.2.1 1 (by decide) (by decide)
      (by decide) (by decide)).2.1 rfl⟩

/-! ## Caller-facing property API: theorems -/

theorem toLower_toNat_ne_zero (c : Char) (h : c ≠ Char.ofNat 0) : c.toLower.toNat ≠ 0 := by
  unfold Char.toLower
  by_cases hc : c.toNat ≥ 65 ∧ c.toNat ≤ 90
  · simp only [hc, and_self, ↓reduceIte]
    obtain ⟨h1, h2⟩ := hc
    generalize c.toNat = n at h1 h2
    interval_cases n <;> decide
  · simp only [hc, ↓reduceIte]
    intro h0
    apply h
    rw [← Char.ofNat_toNat c, h0]

theorem char_eq_of_toNat_eq (a b : Char) (h : a.toNat = b.toNat) : a = b := by
  rw [← Char.ofNat_toNat a, ← Char.ofNat_toNat b, h]

theorem strcasecmpChars_eq_zero (a b : List Char)
    (ha : ∀ c ∈ a, c ≠ Char.ofNat 0) (hb : ∀ c ∈ b, c ≠ Char.ofNat 0)
    (h : strcasecmpChars a b = 0) : a.map Char.toLower = b.map Char.toLower := by
  induction a generalizing b with
  | nil =>
    cases b with
    | nil => rfl
    | cons y ys =>
      simp only [strcasecmpChars] at h
      have := toLower_toNat_ne_zero y (hb y (List.mem_cons_self y ys))
      omega
  | cons x xs ih =>
    cases b with
    | nil =>
      simp only [strcasecmpChars] at h
      have := toLower_toNat_ne_zero x (ha x (List.mem_cons_self x xs))
      omega
    | cons y ys =>
      simp only [strcasecmpChars] at h
      by_cases e : x.toLower = y.toLower
      · simp only [e, ↓reduceIte] at h
        simp only [List.map_cons, e]
        rw [ih ys (fun c hc => ha c (List.mem_cons_of_mem x hc))
          (fun c hc => hb c (List.mem_cons_of_mem y hc)) h]
      · simp only [e, ↓reduceIte] at h
        exact absurd (char_eq_of_toNat_eq _ _ (by omega)) e

theorem cchars_ne_nul (s : String) : ∀ c ∈ cchars s, c ≠ Char.ofNat 0 := by
  intro c hc
  have := List.mem_takeWhile_imp hc
  simpa using this

theorem strcasecmp_ne_zero (a b : String) (h : ¬ caselessEq a b) : strcasecmp a b ≠ 0 :=
  fun e => h (strcasecmpChars_eq_zero _ _ (cchars_ne_nul a) (cchars_ne_nul b) e)

/-- C9: for a name that is not, up to the case of its letters, one of the
recognised integer properties, `VbGetArchPropertyInt` returns -1 whatever the
property store holds and changes nothing; for a name that is not one of the
recognised string properties, `VbGetArchPropertyString` returns NULL and
leaves `dest` as it was. -/
theorem unrecognized_names_not_found (name : String) :
    ((∀ r ∈ recognizedIntNames, ¬ caselessEq name r) →
      ∀ w : World, VbGetArchPropertyInt w name = (-1, w)) ∧
    ((∀ r ∈ recognizedStringNames, ¬ caselessEq name r) →
      ∀ (w : World) (dest : String) (size : Int),
        VbGetArchPropertyString w name dest size = (none, dest)) := by
  constructor
  · intro h w
    have hn : ∀ r ∈ recognizedIntNames, strcasecmp name r ≠ 0 :=
      fun r hr => strcasecmp_ne_zero name r (h r hr)
    simp only [recognizedIntNames, List.mem_cons, List.mem_singleton, forall_eq_or_imp,
      forall_eq, List.not_mem_nil, false_implies, implies_true, and_true] at hn
    obtain ⟨h1, h2, h3, h4, h5, h6, h7, h8⟩ := hn
    simp only [VbGetArchPropertyInt, h1, h2, h3, h4, h5, h6, h7, h8, ↓reduceIte]
  · intro h w dest size
    have hn : ∀ r ∈ recognizedStringNames, strcasecmp name r ≠ 0 :=
      fun r hr => strcasecmp_ne_zero name r (h r hr)
    simp only [recognizedStringNames, List.mem_cons, List.mem_singleton, forall_eq_or_imp,
      forall_eq, List.not_mem_nil, false_implies, implies_true, and_true] at hn
    obtain ⟨h1, h2, h3, h4, h5, h6, h7, h8⟩ := hn
    simp only [VbGetArchPropertyString, h1, h2, h3, h4, h5, h6, h7, h8, ↓reduceIte]

/-- Witness for C9 on the sample machine: a string property name asked as an
integer, and an integer property name asked as a string. -/
theorem unrecognized_names_not_found_witness :
    VbGetArchPropertyInt w0 "Platform_Family" = (-1, w0) ∧
    VbGetArchPropertyString w0 "FMAP_base" "dest" 5 = (none, "dest") :=
  ⟨(unrecognized_names_not_found "Platform_Family").1 (by decide) w0,
   (unrecognized_names_not_found "FMAP_base").2 (by decide) w0 "dest" 5⟩

/-! ## Property store reader: theorems -/

/-- An empty record makes `ReadFdtBlock` fail the way a record that cannot be
opened does: `fread` of one item of size 0 reports 0 items. -/
theorem ReadFdtBlock_empty (w : World) (property : String)
    (hf : w.files (blockFileName property) = some []) (hm : w.mallocFails = false) :
    ReadFdtBlock w property true = (E_FILEOP, none) := by
  simp [ReadFdtBlock, hf, hm, freadItems]

/-- C10 (the code at the failing input): on the empty record `hardware-id`
`ReadFdtBlock` returns `E_FILEOP` and stores no buffer, which is also what it
returns for the record `firmware-type` that cannot be opened. -/
theorem ReadFdtBlock_empty_record_is_fileop :
    wEmptyRecord.files (blockFileName "hardware-id") = some [] ∧
    wEmptyRecord.files (blockFileName "firmware-type") = none ∧
    ReadFdtBlock wEmptyRecord "hardware-id" true = (E_FILEOP, none) ∧
    ReadFdtBlock wEmptyRecord "firmware-type" true = (E_FILEOP, none) := by
  decide

/-! ## Platform family classifier: theorems -/

theorem takeWhile_append_of_exists {α : Type} (p : α → Bool) (l1 l2 : List α)
    (h : ∃ x ∈ l1, p x = false) : (l1 ++ l2).takeWhile p = l1.takeWhile p := by
  induction l1 with
  | nil => obtain ⟨x, hx, _⟩ := h; cases hx
  | cons a t ih =>
    by_cases ha : p a = true
    · simp only [List.cons_append, List.takeWhile_cons, ha, ↓reduceIte]
      congr 1
      apply ih
      obtain ⟨x, hx, hpx⟩ := h
      rcases List.mem_cons.mp hx with rfl | hx
      · rw [ha] at hpx; cases hpx
      · exact ⟨x, hx, hpx⟩
    · simp only [List.cons_append, List.takeWhile_cons, ha]
      rfl

theorem nulTerminatedStrings_of_mem (l : List Nat) (h : 0 ∈ l) :
    nulTerminatedStrings l =
      l.takeWhile (fun b => b != 0) ::
        nulTerminatedStrings (l.drop ((l.takeWhile (fun b => b != 0)).length + 1)) := by
  induction l with
  | nil => cases h
  | cons b bs ih =>
    by_cases hb : b = 0
    · subst hb
      simp [nulTerminatedStrings]
    · have hmem : 0 ∈ bs := by
        rcases List.mem_cons.mp h with e | e
        · exact absurd e.symm hb
        · exact e
      have hb' : (b != 0) = true := by simpa using hb
      simp only [nulTerminatedStrings, hb, ↓reduceIte, List.takeWhile_cons, hb',
        List.length_cons, List.drop_succ_cons]
      rw [ih hmem]

theorem nulTerminatedStrings_of_not_mem (l : List Nat) (h : 0 ∉ l) :
    nulTerminatedStrings l = [] := by
  induction l with
  | nil => rfl
  | cons b bs ih =>
    have hb : b ≠ 0 := fun e => h (by simp [e])
    have hbs : 0 ∉ bs := fun e => h (List.mem_cons_of_mem b e)
    simp only [nulTerminatedStrings, hb, ↓reduceIte, ih hbs]

theorem takeWhile_length_lt_of_mem (l : List Nat) (h : 0 ∈ l) :
    (l.takeWhile (fun b => b != 0)).length < l.length := by
  induction l with
  | nil => cases h
  | cons b bs ih =>
    by_cases hb : b = 0
    · subst hb; simp
    · have hmem : 0 ∈ bs := by
        rcases List.mem_cons.mp h with e | e
        · exact absurd e.symm hb
        · exact e
      have hb' : (b != 0) = true := by simpa using hb
      simp only [List.takeWhile_cons, hb', ↓reduceIte, List.length_cons]
      have := ih hmem
      omega

/-- Every suffix that starts inside a list ending with a 0 byte holds a 0
byte. -/
theorem zero_mem_drop_of_getLast (L : List Nat) (s : Nat) (hs : s < L.length)
    (hL : L.getLast? = some 0) : 0 ∈ L.drop s := by
  have hne : L.drop s ≠ [] := by
    intro e
    have := congrArg List.length e
    simp at this
    omega
  have h1 : (L.drop s).getLast? = some 0 := by
    rw [List.getLast?_drop]
    simp [hL]
    omega
  exact List.mem_of_getLast?_eq_some h1

theorem familyWalk_eq_firstFamily (L : List Nat) (hL : L = [] ∨ L.getLast? = some 0) :
    ∀ (k s : Nat), L.length - s = k → s ≤ L.length →
      familyWalk (L ++ [0]) L.length s = firstFamily (nulTerminatedStrings (L.drop s)) := by
  intro k
  induction k using Nat.strong_induction_on with
  | _ k ih =>
    intro s hk hs
    rw [familyWalk]
    by_cases hlt : s < L.length
    · have hL' : L.getLast? = some 0 := by
        rcases hL with e | e
        · subst e; simp at hlt
        · exact e
      have hmem := zero_mem_drop_of_getLast L s hlt hL'
      have hc : cstrAt (L ++ [0]) s = (L.drop s).takeWhile (fun b => b != 0) := by
        unfold cstrAt
        rw [List.drop_append_of_le_length hs]
        exact takeWhile_append_of_exists _ _ _ ⟨0, hmem, by simp⟩
      have hlen := takeWhile_length_lt_of_mem _ hmem
      simp only [List.length_drop] at hlen
      rw [nulTerminatedStrings_of_mem _ hmem]
      simp only [hlt, ↓reduceIte, hc, firstFamily, List.findSome?_cons]
      cases hm : matchFamily ((L.drop s).takeWhile (fun b => b != 0)) with
      | some p => simp
      | none =>
        simp only [Option.map_none']
        have := ih (L.length - (s + ((L.drop s).takeWhile (fun b => b != 0)).length + 1))
          (by omega) (s + ((L.drop s).takeWhile (fun b => b != 0)).length + 1) rfl (by omega)
        rw [this, List.drop_drop]
        simp only [firstFamily]
        congr 2
    · have e : s = L.length := by omega
      subst e
      simp [firstFamily, nulTerminatedStrings]

theorem forceLast_terminated (blob : List Nat) :
    forceLast blob = [] ∨ (forceLast blob).getLast? = some 0 := by
  unfold forceLast
  rcases List.eq_nil_or_concat blob with e | ⟨l, a, e⟩
  · left; subst e; rfl
  · right
    subst e
    simp [List.set_append]

theorem set_append_last (blob : List Nat) (h : blob ≠ []) :
    (blob ++ [0]).set (blob.length - 1) 0 = forceLast blob ++ [0] := by
  unfold forceLast
  rcases List.eq_nil_or_concat blob with e | ⟨l, a, e⟩
  · exact absurd e h
  · subst e
    simp [List.set_append]

theorem classifyBuffer_eq (blob : List Nat) :
    classifyBuffer (blob ++ [0]) blob.length
      = firstFamily (nulTerminatedStrings (forceLast blob)) := by
  unfold classifyBuffer
  by_cases h : blob = []
  · subst h
    rw [familyWalk]
    simp [forceLast, firstFamily, nulTerminatedStrings]
  · have hpos : blob.length > 0 := List.length_pos.mpr h
    simp only [hpos, ↓reduceIte]
    rw [set_append_last blob h]
    have hlen : (forceLast blob).length = blob.length := by simp [forceLast]
    have := familyWalk_eq_firstFamily (forceLast blob) (forceLast_terminated blob)
      (forceLast blob).length 0 (by simp) (by simp)
    rw [hlen] at this
    simpa using this

theorem ReadFdtPlatformFamily_eq (w : World) (blob : List Nat)
    (hf : w.files FDT_COMPATIBLE_PATH = some blob) (hm : w.mallocFails = false) :
    ReadFdtPlatformFamily w = firstFamily (nulTerminatedStrings (forceLast blob)) := by
  have hp : blockFileName FDT_COMPATIBLE_PATH = FDT_COMPATIBLE_PATH := by decide
  by_cases h : blob = []
  · subst h
    simp [ReadFdtPlatformFamily, ReadFdtBlock, hp, hf, hm, freadItems, forceLast,
      firstFamily, nulTerminatedStrings, E_FILEOP]
  · have hpos : blob.length ≠ 0 := fun e => h (List.length_eq_zero.mp e)
    have hdiv : blob.length / blob.length = 1 := Nat.div_self (by omega)
    simp only [ReadFdtPlatformFamily, ReadFdtBlock, hp, hf, hm, freadItems, hpos, hdiv]
    simp [classifyBuffer_eq]

theorem forceLast_cons (b : Nat) (bs : List Nat) (h : bs ≠ []) :
    forceLast (b :: bs) = b :: forceLast bs := by
  unfold forceLast
  cases bs with
  | nil => exact absurd rfl h
  | cons c cs => simp

theorem nulTerminatedStrings_forceLast_ne_nil (blob : List Nat) (h : blob ≠ []) :
    nulTerminatedStrings (forceLast blob) ≠ [] := by
  have hne : forceLast blob ≠ [] := by
    intro e
    have := congrArg List.length e
    simp [forceLast] at this
    exact h this
  have hmem : 0 ∈ forceLast blob := by
    rcases forceLast_terminated blob with e | e
    · exact absurd e hne
    · exact List.mem_of_getLast?_eq_some e
  rw [nulTerminatedStrings_of_mem _ hmem]
  simp

theorem nulTerminatedStrings_forceLast (blob : List Nat) :
    ∃ extra, nulTerminatedStrings (forceLast blob) = nulTerminatedStrings blob ++ extra := by
  induction blob with
  | nil => exact ⟨[], rfl⟩
  | cons b bs ih =>
    by_cases hbs : bs = []
    · subst hbs
      by_cases hb : b = 0
      · subst hb; exact ⟨[], by simp [forceLast, nulTerminatedStrings]⟩
      · exact ⟨[[]], by simp [forceLast, nulTerminatedStrings, hb]⟩
    · obtain ⟨extra, he⟩ := ih
      rw [forceLast_cons b bs hbs]
      by_cases hb : b = 0
      · subst hb
        exact ⟨extra, by simp [nulTerminatedStrings, he]⟩
      · have hne := nulTerminatedStrings_forceLast_ne_nil bs hbs
        simp only [nulTerminatedStrings, hb, ↓reduceIte]
        cases h1 : nulTerminatedStrings (forceLast bs) with
        | nil => exact absurd h1 hne
        | cons s1 rest1 =>
          cases h2 : nulTerminatedStrings bs with
          | nil => exact ⟨(b :: s1) :: rest1, by simp⟩
          | cons s2 rest2 =>
            rw [h1, h2] at he
            simp only [List.cons_append, List.cons.injEq] at he
            obtain ⟨e1, e2⟩ := he
            subst e1
            exact ⟨extra, by simp [e2]⟩

theorem table_platform_unique :
    ∀ p ∈ platform_family_array, ∀ q ∈ platform_family_array,
      cstr p.compatible_string = cstr q.compatible_string →
      p.platform_string = q.platform_string := by
  decide

theorem matchFamily_of_mem (p : PlatformFamily) (hp : p ∈ platform_family_array) :
    (matchFamily (cstr p.compatible_string)).map PlatformFamily.platform_string
      = some p.platform_string := by
  unfold matchFamily
  cases h : platform_family_array.find? (fun q => cstr p.compatible_string == cstr q.compatible_string) with
  | none =>
    rw [List.find?_eq_none] at h
    have := h p hp
    simp at this
  | some q =>
    have hq := List.find?_some h
    have hmem := List.mem_of_find?_eq_some h
    simp only [beq_iff_eq] at hq
    simp only [Option.map_some', Option.some.injEq]
    exact (table_platform_unique p hp q hmem hq).symm

theorem matchFamily_eq_none (t : List Nat)
    (h : ∀ q ∈ platform_family_array, cstr q.compatible_string ≠ t) : matchFamily t = none := by
  unfold matchFamily
  rw [List.find?_eq_none]
  intro q hq
  simp only [beq_iff_eq]
  exact fun e => h q hq e.symm

theorem firstFamily_first_match (l1 l2 : List (List Nat)) (p : PlatformFamily)
    (hp : p ∈ platform_family_array)
    (h1 : ∀ t ∈ l1, ∀ q ∈ platform_family_array, cstr q.compatible_string ≠ t) :
    firstFamily (l1 ++ cstr p.compatible_string :: l2) = some p.platform_string := by
  unfold firstFamily
  induction l1 with
  | nil => simp [List.findSome?_cons, matchFamily_of_mem p hp]
  | cons a t ih =>
    have ha := matchFamily_eq_none a (h1 a (List.mem_cons_self a t))
    simp only [List.cons_append, List.findSome?_cons, ha, Option.map_none']
    exact ih (fun x hx => h1 x (List.mem_cons_of_mem a hx))

theorem firstFamily_eq_none (l : List (List Nat))
    (h : ∀ t ∈ l, ∀ q ∈ platform_family_array, cstr q.compatible_string ≠ t) :
    firstFamily l = none := by
  unfold firstFamily
  rw [List.findSome?_eq_none_iff]
  intro t ht
  simp [matchFamily_eq_none t (h t ht)]

/-- C5: when some NUL-terminated string of the compatible blob equals a
`compatible_string` of the table, `ReadFdtPlatformFamily` returns the
`platform_string` of the first such string in blob order, whatever the later
strings match. -/
theorem ReadFdtPlatformFamily_first_match (w : World) (blob : List Nat)
    (l1 l2 : List (List Nat)) (p : PlatformFamily)
    (hf : w.files FDT_COMPATIBLE_PATH = some blob) (hm : w.mallocFails = false)
    (hsplit : nulTerminatedStrings blob = l1 ++ cstr p.compatible_string :: l2)
    (hp : p ∈ platform_family_array)
    (hfirst : ∀ t ∈ l1, ∀ q ∈ platform_family_array, cstr q.compatible_string ≠ t) :
    ReadFdtPlatformFamily w = some p.platform_string := by
  rw [ReadFdtPlatformFamily_eq w blob hf hm]
  obtain ⟨extra, he⟩ := nulTerminatedStrings_forceLast blob
  rw [he, hsplit, List.append_assoc, List.cons_append]
  exact firstFamily_first_match l1 (l2 ++ extra) p hp hfirst

/-- Witness for C5, the example of the specification: the blob
`ti,omap4\0nvidia,tegra20\0` is classified as OMAP4 although its second
string matches an earlier row of the table. -/
theorem ReadFdtPlatformFamily_first_match_witness :
    w0.files FDT_COMPATIBLE_PATH = some (cstr "ti,omap4" ++ [0] ++ cstr "nvidia,tegra20" ++ [0]) ∧
    nulTerminatedStrings (cstr "ti,omap4" ++ [0] ++ cstr "nvidia,tegra20" ++ [0])
      = [cstr "ti,omap4", cstr "nvidia,tegra20"] ∧
    ReadFdtPlatformFamily w0 = some "OMAP4" :=
  ⟨by decide, by decide,
    ReadFdtPlatformFamily_first_match w0
      (cstr "ti,omap4" ++ [0] ++ cstr "nvidia,tegra20" ++ [0]) [] [cstr "nvidia,tegra20"]
      ⟨"ti,omap4", "OMAP4"⟩ (by decide) (by decide) (by decide) (by decide) (by decide)⟩

theorem VbGetArchPropertyString_platform_family (w : World) (dest : String) (size : Int) :
    VbGetArchPropertyString w "platform_family" dest size =
      match ReadFdtPlatformFamily w with
      | some s => (some (StrCopy s size), StrCopy s size)
      | none => (none, dest) := by
  have h0 : strcasecmp "platform_family" "arch" ≠ 0 := by decide
  have h1 : strcasecmp "platform_family" "ro_fwid" ≠ 0 := by decide
  have h2 : strcasecmp "platform_family" "hwid" ≠ 0 := by decide
  have h3 : strcasecmp "platform_family" "fwid" ≠ 0 := by decide
  have h4 : strcasecmp "platform_family" "mainfw_type" ≠ 0 := by decide
  have h5 : strcasecmp "platform_family" "ecfw_act" ≠ 0 := by decide
  have h6 : strcasecmp "platform_family" "ddr_type" ≠ 0 := by decide
  have h7 : strcasecmp "platform_family" "platform_family" = 0 := by decide
  simp only [VbGetArchPropertyString, h0, h1, h2, h3, h4, h5, h6, h7, ↓reduceIte]

theorem ReadFdtPlatformFamily_unobtainable (w : World)
    (h : w.files FDT_COMPATIBLE_PATH = none ∨ w.mallocFails = true) :
    ReadFdtPlatformFamily w = none := by
  have hp : blockFileName FDT_COMPATIBLE_PATH = FDT_COMPATIBLE_PATH := by decide
  simp only [ReadFdtPlatformFamily, ReadFdtBlock, hp]
  cases hf : w.files FDT_COMPATIBLE_PATH with
  | none => simp [E_FILEOP]
  | some blob =>
    rcases h with h | h
    · rw [hf] at h; cases h
    · simp [h, E_MEM]

/-- C6 (counterexample): the blob `ti,omap44` holds no 0 byte, so it has no
NUL-terminated string at all, and yet it is classified as OMAP4: the last
byte of the blob is overwritten by 0 before the walk. -/
theorem ReadFdtPlatformFamily_unterminated_blob_classified :
    (withCompatible (cstr "ti,omap44")).files FDT_COMPATIBLE_PATH = some (cstr "ti,omap44") ∧
    (withCompatible (cstr "ti,omap44")).mallocFails = false ∧
    nulTerminatedStrings (cstr "ti,omap44") = [] ∧
    ReadFdtPlatformFamily (withCompatible (cstr "ti,omap44")) = some "OMAP4" ∧
    (VbGetArchPropertyString (withCompatible (cstr "ti,omap44")) "platform_family" "" 16).1
      = some "OMAP4" := by
  have h : ReadFdtPlatformFamily (withCompatible (cstr "ti,omap44")) = some "OMAP4" := by
    rw [ReadFdtPlatformFamily_eq _ (cstr "ti,omap44") (by decide) (by decide)]
    decide
  refine ⟨by decide, by decide, by decide, h, ?_⟩
  rw [VbGetArchPropertyString_platform_family, h]
  decide

/-- C6 (amended): `ReadFdtPlatformFamily` returns NULL for every blob none of
whose strings, as they stand once the last byte of the blob is overwritten by
0, equals a `compatible_string` of the table, and whenever the blob cannot be
obtained (the record cannot be opened, or the allocation fails);
`VbGetArchPropertyString("platform_family")` then returns NULL and leaves
`dest` as it was. -/
theorem ReadFdtPlatformFamily_no_match (w : World) :
    (∀ blob, w.files FDT_COMPATIBLE_PATH = some blob →
      (∀ t ∈ nulTerminatedStrings (forceLast blob),
        ∀ q ∈ platform_family_array, cstr q.compatible_string ≠ t) →
      ReadFdtPlatformFamily w = none ∧
      ∀ (dest : String) (size : Int),
        VbGetArchPropertyString w "platform_family" dest size = (none, dest)) ∧
    (w.files FDT_COMPATIBLE_PATH = none ∨ w.mallocFails = true →
      ReadFdtPlatformFamily w = none ∧
      ∀ (dest : String) (size : Int),
        VbGetArchPropertyString w "platform_family" dest size = (none, dest)) := by
  have hstr : ReadFdtPlatformFamily w = none →
      ReadFdtPlatformFamily w = none ∧
      ∀ (dest : String) (size : Int),
        VbGetArchPropertyString w "platform_family" dest size = (none, dest) := by
    intro h
    refine ⟨h, fun dest size => ?_⟩
    rw [VbGetArchPropertyString_platform_family, h]
  constructor
  · intro blob hf hno
    apply hstr
    by_cases hm : w.mallocFails = true
    · exact ReadFdtPlatformFamily_unobtainable w (Or.inr hm)
    · simp only [Bool.not_eq_true] at hm
      rw [ReadFdtPlatformFamily_eq w blob hf hm]
      exact firstFamily_eq_none _ hno
  · intro h
    exact hstr (ReadFdtPlatformFamily_unobtainable w h)

/-- Witness for C6 (amended): a blob of an unknown platform, and a machine
without compatible record. -/
theorem ReadFdtPlatformFamily_no_match_witness :
    ReadFdtPlatformFamily (withCompatible (cstr "acme,board" ++ [0] ++ cstr "ti,omap5" ++ [0])) = none ∧
    VbGetArchPropertyString wEmptyRecord "platform_family" "dest" 16 = (none, "dest") :=
  ⟨((ReadFdtPlatformFamily_no_match
      (withCompatible (cstr "acme,board" ++ [0] ++ cstr "ti,omap5" ++ [0]))).1
      (cstr "acme,board" ++ [0] ++ cstr "ti,omap5" ++ [0]) (by decide) (by decide)).1,
   ((ReadFdtPlatformFamily_no_match wEmptyRecord).2 (Or.inl (by decide))).2 "dest" 16⟩

/-! ## NV context accessor: theorems -/

theorem toInt32_of_range (x : Int) (h1 : -2147483648 ≤ x) (h2 : x < 2147483648) :
    toInt32 x = x := by
  unfold toInt32
  omega

theorem geometry_accepted (len : Nat) (o s : Nat) (hlen : len = s) (hb : o + s ≤ SECTOR_SIZE) :
    ¬ ((s : Int) ≠ (len : Int) ∨ toInt32 ((s : Int) + (o : Int)) > (SECTOR_SIZE : Int)) := by
  have h512 : SECTOR_SIZE = 512 := rfl
  rw [toInt32_of_range _ (by omega) (by omega)]
  omega

theorem VbReadNvStorage_reads (w : World) (vnc : VbNvContext) (fd o s : Nat)
    (hdev : 0 ≤ FindEmmcDev w)
    (hO : nvOffset w = (o : Int)) (hS : nvSize w = (s : Int))
    (hlen : vnc.raw.length = s) (hs : 0 < s) (hb : o + s ≤ SECTOR_SIZE)
    (hopen : w.openFd = some fd) :
    ∃ w1, VbReadNvStorage w vnc =
      some (0, ⟨(List.range s).map (fun i => sectorAfterRead w (o + i))⟩, w1) := by
  unfold nvOffset at hO
  unfold nvSize at hS
  have hdev' : ¬ (FindEmmcDev w < 0) := by omega
  have hgeo := geometry_accepted vnc.raw.length o s hlen hb
  have hfd : ¬ ((fd : Int) = -1) := by omega
  have hs' : ¬ ((s : Int) ≤ 0) := by omega
  have hload : 0 ≤ (o : Int) ∧ 0 ≤ (s : Int) ∧ (o : Int) + (s : Int) ≤ (SECTOR_SIZE : Int) := by
    omega
  simp only [VbReadNvStorage, hO, hS, hdev', hgeo, ↓reduceIte, sysOpen, hopen, hfd,
    sysLseek, logOp, Function.update_same, sysRead, hs', sectorLoad, hload, and_self,
    Int.toNat_ofNat]
  exact ⟨_, rfl⟩

theorem closeOut_fields (w : World) (fd : Int) :
    (closeOut w fd).disk = w.disk ∧ (closeOut w fd).files = w.files ∧
    (closeOut w fd).mmcRemovable = w.mmcRemovable ∧
    (closeOut w fd).log = w.log ++ (if fd > 0 then [DevOp.close fd] else []) := by
  unfold closeOut
  by_cases h : fd > 0
  · simp [h, sysClose, logOp]
  · simp [h]

theorem closeOut_diskSize (w : World) (fd : Int) :
    (closeOut w fd).diskSize = w.diskSize := by
  unfold closeOut
  by_cases h : fd > 0
  · simp [h, sysClose, logOp]
  · simp [h]

theorem VbWriteNvStorage_writes (w : World) (B : List Nat) (fd o s : Nat)
    (hdev : 0 ≤ FindEmmcDev w)
    (hO : nvOffset w = (o : Int)) (hS : nvSize w = (s : Int))
    (hlen : B.length = s) (hb : o + s ≤ SECTOR_SIZE)
    (hopen : w.openFd = some fd) (hr : 0 < w.readRes) (hwr : 0 < w.writeRes) :
    ∃ w1, VbWriteNvStorage w ⟨B⟩ = some (if w.flushRes < 0 then w.flushRes else 0, w1) ∧
      w1.disk = diskAfterWrite w B o ∧ w1.files = w.files ∧
      w1.mmcRemovable = w.mmcRemovable ∧ w1.diskSize = w.diskSize ∧
      w1.log = w.log ++ [DevOp.open (FindEmmcDev w) true, DevOp.lseek fd (nvSeek w),
        DevOp.read fd, DevOp.lseek fd (nvSeek w), DevOp.write fd, DevOp.flush fd]
        ++ (if (fd : Int) > 0 then [DevOp.close fd] else []) := by
  subst hlen
  unfold nvOffset at hO
  unfold nvSize at hS
  have h512 : SECTOR_SIZE = 512 := rfl
  have hdev' : ¬ (FindEmmcDev w < 0) := by omega
  have hgeo := geometry_accepted (VbNvContext.mk B).raw.length o B.length rfl hb
  have hfd : ¬ ((fd : Int) = -1) := by omega
  have hstore : 0 ≤ (o : Int) ∧ 0 ≤ (B.length : Int) ∧
      (o : Int) + (B.length : Int) ≤ (SECTOR_SIZE : Int) := by
    omega
  have hr1 : ¬ (w.readRes < 0) := by omega
  have hr2 : ¬ (((min w.readRes.toNat SECTOR_SIZE : Nat) : Int) ≤ 0) := by omega
  have hw1 : ¬ (w.writeRes < 0) := by omega
  have hw2 : ¬ (((min w.writeRes.toNat SECTOR_SIZE : Nat) : Int) ≤ 0) := by omega
  simp only [VbWriteNvStorage, hO, hS, hdev', hgeo, ↓reduceIte, sysOpen, hopen, hfd,
    sysLseek, logOp, Function.update_same, sysRead, sectorStore, hstore, and_self,
    Int.toNat_ofNat, hr1, hr2, sysWrite, hw1, hw2, sysFlush]
  by_cases hf : w.flushRes < 0
  · simp only [hf, ↓reduceIte]
    refine ⟨_, rfl, ?_, ?_, ?_, ?_, ?_⟩
    · rw [(closeOut_fields _ _).1]; rfl
    · rw [(closeOut_fields _ _).2.1]
    · rw [(closeOut_fields _ _).2.2.1]
    · rw [closeOut_diskSize]
    · rw [(closeOut_fields _ _).2.2.2]; simp [nvSeek, nvLba]
  · simp only [hf, ↓reduceIte]
    refine ⟨_, rfl, ?_, ?_, ?_, ?_, ?_⟩
    · rw [(closeOut_fields _ _).1]; rfl
    · rw [(closeOut_fields _ _).2.1]
    · rw [(closeOut_fields _ _).2.2.1]
    · rw [closeOut_diskSize]
    · rw [(closeOut_fields _ _).2.2.2]; simp [nvSeek, nvLba]

/-- A sector address beyond the end of the device is refused by `lseek` as
well: on the sample machine with the block address 2049 the geometry passes
the validation, `lseek` to byte 1049088 of the device of 1048576 bytes is
refused, so `VbWriteNvStorage` reads sector 0, writes the merged sector behind
it (bytes 520..535 of the device now hold the blob) and returns 0, and the
following `VbReadNvStorage` returns 0 with the bytes of sector 0, which are
not the blob. -/
theorem nv_round_trip_fails_when_seek_beyond_device :
    nvLba wFarLba = 2049 ∧ nvSeek wFarLba = 1049088 ∧ FindEmmcDev wFarLba = 2 ∧
    wFarLba.diskSize 2 = 1048576 ∧
    (VbWriteNvStorage wFarLba ⟨sampleBlob⟩).map
        (fun r => (r.1, (List.range 16).map (fun i => r.2.disk 2 (520 + i))))
      = some (0, sampleBlob) ∧
    ((VbWriteNvStorage wFarLba ⟨sampleBlob⟩).bind
        (fun r => VbReadNvStorage r.2 ⟨List.replicate 16 0⟩)).map (fun r => (r.1, r.2.1))
      = some (0, ⟨List.replicate 16 0⟩) ∧
    List.replicate 16 0 ≠ sampleBlob := by
  decide

/-- A short `write` is not noticed either: on the sample machine with a device
that accepts 8 bytes, `VbWriteNvStorage` returns 0 although bytes 8..23 of
the sector, where the blob belongs, were not written, and the following
`VbReadNvStorage` returns 0 with the old bytes. -/
theorem nv_round_trip_fails_on_short_write :
    (VbWriteNvStorage { w0 with writeRes := 8 } ⟨sampleBlob⟩).map Prod.fst = some 0 ∧
    ((VbWriteNvStorage { w0 with writeRes := 8 } ⟨sampleBlob⟩).bind
        (fun r => VbReadNvStorage r.2 ⟨List.replicate 16 0⟩)).map (fun r => (r.1, r.2.1))
      = some (0, ⟨List.replicate 16 0⟩) := by
  decide

/-- The read phase of `VbWriteNvStorage` fails: with an accepted geometry and
the device opened, a `read` that reports a non-positive count ends the call
before the scratch sector is touched; no `write` and no flush is issued, the
content of the devices is unchanged, and the status is the count reported
by `read`, which is -1 or 0. -/
theorem VbWriteNvStorage_read_phase_fails (w : World) (vnc : VbNvContext) (fd : Nat)
    (hdev : 0 ≤ FindEmmcDev w)
    (hgeo : ¬ (nvSize w ≠ (vnc.raw.length : Int) ∨
      toInt32 (nvSize w + nvOffset w) > (SECTOR_SIZE : Int)))
    (hopen : w.openFd = some fd) (hr : w.readRes ≤ 0) :
    ∃ w1, VbWriteNvStorage w vnc = some (if w.readRes < 0 then -1 else 0, w1) ∧
      w1.disk = w.disk ∧
      w1.log = w.log ++ [DevOp.open (FindEmmcDev w) true, DevOp.lseek fd (nvSeek w),
        DevOp.read fd] ++ (if (fd : Int) > 0 then [DevOp.close fd] else []) := by
  unfold nvSize nvOffset at hgeo
  have h512 : SECTOR_SIZE = 512 := rfl
  have hdev' : ¬ (FindEmmcDev w < 0) := by omega
  have hfd : ¬ ((fd : Int) = -1) := by omega
  have hz : w.readRes.toNat = 0 := by omega
  have hm1 : (-1 : Int) ≤ 0 := by decide
  by_cases hneg : w.readRes < 0
  · simp only [VbWriteNvStorage, hdev', hgeo, ↓reduceIte, sysOpen, hopen, hfd,
      sysLseek, logOp, Function.update_same, sysRead, hneg, hm1]
    refine ⟨_, rfl, ?_, ?_⟩
    · rw [(closeOut_fields _ _).1]
    · rw [(closeOut_fields _ _).2.2.2]; simp [nvSeek, nvLba]
  · simp only [VbWriteNvStorage, hdev', hgeo, ↓reduceIte, sysOpen, hopen, hfd,
      sysLseek, logOp, Function.update_same, sysRead, hneg, hz, Nat.zero_min,
      Nat.cast_zero, le_refl]
    refine ⟨_, rfl, ?_, ?_⟩
    · rw [(closeOut_fields _ _).1]
    · rw [(closeOut_fields _ _).2.2.2]; simp [nvSeek, nvLba]

/-- C2 (the code at the failing input): on the sample machine with a device
that reports end of device to the `read` of the read phase,
`VbWriteNvStorage` issues open, lseek, read and close only, and returns 0,
the status of a successful write. -/
theorem VbWriteNvStorage_read_eof_returns_zero :
    wReadEof.readRes = 0 ∧
    (VbWriteNvStorage wReadEof ⟨sampleBlob⟩).map Prod.fst = some 0 ∧
    (VbWriteNvStorage wReadEof ⟨sampleBlob⟩).map (fun r => r.2.log)
      = some [DevOp.open 2 true, DevOp.lseek 3 1024, DevOp.read 3, DevOp.close 3] ∧
    (VbWriteNvStorage wReadEof ⟨sampleBlob⟩).map
        (fun r => (List.range 16).map (fun i => r.2.disk 2 (1032 + i)))
      = some (List.replicate 16 0) := by
  decide

/-- C3 (counterexample): on the sample machine with a device that delivers 4
bytes to `read`, `VbReadNvStorage` returns 0 and overwrites the context with
bytes 8..23 of the scratch sector, which the device never filled. -/
theorem VbReadNvStorage_short_read_succeeds :
    wShortRead.readRes = 4 ∧ wShortRead.openFd = some 3 ∧
    (VbReadNvStorage wShortRead ⟨sampleBlob⟩).map (fun r => (r.1, r.2.1))
      = some (0, ⟨List.replicate 16 170⟩) ∧
    List.replicate 16 170 ≠ sampleBlob := by
  decide

/-- C3 (amended): in `VbReadNvStorage`, with a device found and a geometry
inside the sector, a device that cannot be opened gives the status -1 and
leaves `vnc->raw` exactly as it was; once the device is opened, a `read` that
reports a positive count, short of 512 or not, gives the status 0, and
`vnc->raw` receives bytes `offset .. offset+size-1` of the scratch sector:
the bytes the device delivered, followed by the indeterminate bytes of the
array. -/
theorem VbReadNvStorage_open_failure_and_short_read (w : World) (vnc : VbNvContext)
    (hdev : 0 ≤ FindEmmcDev w)
    (hsize : nvSize w = (vnc.raw.length : Int)) (hne : vnc.raw ≠ [])
    (hoff : 0 ≤ nvOffset w) (hbound : nvOffset w + nvSize w ≤ (SECTOR_SIZE : Int)) :
    (w.openFd = none →
      VbReadNvStorage w vnc = some (-1, vnc, logOp w (DevOp.open (FindEmmcDev w) false))) ∧
    (∀ fd : Nat, w.openFd = some fd → 0 < w.readRes →
      ∃ w1, VbReadNvStorage w vnc =
        some (0,
          ⟨(List.range vnc.raw.length).map
            (fun i => sectorAfterRead w ((nvOffset w).toNat + i))⟩, w1)) := by
  have h512 : SECTOR_SIZE = 512 := rfl
  have hpos : 0 < vnc.raw.length := List.length_pos.mpr hne
  obtain ⟨o, ho⟩ : ∃ o : Nat, nvOffset w = (o : Int) := ⟨(nvOffset w).toNat, by omega⟩
  have hb : o + vnc.raw.length ≤ SECTOR_SIZE := by omega
  constructor
  · intro hopen
    have hdev' : ¬ (FindEmmcDev w < 0) := by omega
    have hgeo := geometry_accepted vnc.raw.length o vnc.raw.length rfl hb
    unfold nvOffset at ho
    unfold nvSize at hsize
    have hm1 : ¬ ((-1 : Int) > 0) := by decide
    simp only [VbReadNvStorage, hdev', ho, hsize, hgeo, sysOpen, hopen, closeOut, hm1,
      ↓reduceIte]
  · intro fd hopen _
    have := VbReadNvStorage_reads w vnc fd o vnc.raw.length hdev ho hsize rfl hpos hb hopen
    rw [ho]
    simpa using this

/-- Witness for C3 (amended) on the sample machine: the device cannot be
opened, and the device delivers 4 bytes. -/
theorem VbReadNvStorage_open_failure_and_short_read_witness :
    VbReadNvStorage { w0 with openFd := none } ⟨sampleBlob⟩
      = some (-1, ⟨sampleBlob⟩, logOp { w0 with openFd := none } (DevOp.open 2 false)) ∧
    ∃ w1, VbReadNvStorage wShortRead ⟨sampleBlob⟩ =
      some (0, ⟨(List.range 16).map (fun i => sectorAfterRead wShortRead (8 + i))⟩, w1) :=
  ⟨(VbReadNvStorage_open_failure_and_short_read { w0 with openFd := none } ⟨sampleBlob⟩
      (by decide) (by decide) (by decide) (by decide) (by decide)).1 rfl,
   (VbReadNvStorage_open_failure_and_short_read wShortRead ⟨sampleBlob⟩
      (by decide) (by decide) (by decide) (by decide) (by decide)).2 3 rfl (by decide)⟩

/-- The failed `read` of `VbReadNvStorage`: the test that follows it looks at
`size`, so a `read` that reports -1 still ends in the status 0 with the
context overwritten by the indeterminate bytes of the scratch sector. -/
theorem VbReadNvStorage_failed_read_returns_zero :
    (VbReadNvStorage { w0 with readRes := -1 } ⟨sampleBlob⟩).map (fun r => (r.1, r.2.1))
      = some (0, ⟨List.replicate 16 170⟩) := by
  decide

/-- The guard of both accessors: when `size` differs from `sizeof(vnc->raw)`
or the `int` sum `size + offset` exceeds `SECTOR_SIZE`, both calls return
`E_FAIL` and leave the context and the world, the log of device operations
included, as they were. -/
theorem nv_geometry_guard (w : World) (vnc : VbNvContext)
    (hgeo : nvSize w ≠ (vnc.raw.length : Int) ∨
      toInt32 (nvSize w + nvOffset w) > (SECTOR_SIZE : Int)) :
    VbReadNvStorage w vnc = some (E_FAIL, vnc, w) ∧
    VbWriteNvStorage w vnc = some (E_FAIL, w) := by
  unfold nvSize nvOffset at hgeo
  constructor
  · simp only [VbReadNvStorage, hgeo, ↓reduceIte, ite_self]
  · simp only [VbWriteNvStorage, hgeo, ↓reduceIte, ite_self]

/-- C4 (the code at the failing input): with the offset 0x7fffffff and the
size 16 the sum exceeds 512, but the `int` addition wraps to a negative value
and the guard lets the geometry pass: when the device cannot be opened the
`open` has been issued, and when it can both calls go on to copy from or to
bytes outside the scratch sector. -/
theorem nv_geometry_overflow_reaches_device :
    nvOffset wOverflow = 2147483647 ∧ nvSize wOverflow = 16 ∧
    nvOffset wOverflow + nvSize wOverflow > 512 ∧
    toInt32 (nvSize wOverflow + nvOffset wOverflow) = -2147483633 ∧
    (VbReadNvStorage { wOverflow with openFd := none } ⟨sampleBlob⟩).map
      (fun r => (r.1, r.2.2.log)) = some (-1, [DevOp.open 2 false]) ∧
    (VbWriteNvStorage { wOverflow with openFd := none } ⟨sampleBlob⟩).map
      (fun r => (r.1, r.2.log)) = some (-1, [DevOp.open 2 true]) ∧
    VbReadNvStorage wOverflow ⟨sampleBlob⟩ = none ∧
    VbWriteNvStorage wOverflow ⟨sampleBlob⟩ = none := by
  refine ⟨by decide, by decide, by decide, by decide, by decide, by decide, rfl, rfl⟩

/-! ## Utility functions: theorems -/

theorem SafeMemcmpLoop_eq (s1 s2 : Nat → Nat) (n i : Nat) (m : Int)
    (h : ∀ j, i ≤ j → j < i + n → s1 j = s2 j) : SafeMemcmpLoop s1 s2 n i m = m := by
  induction n generalizing i m with
  | zero => rfl
  | succ n ih =>
    rw [SafeMemcmpLoop, ih (i + 1) _ (fun j h1 h2 => h j (by omega) (by omega))]
    simp [h i (le_refl i) (by omega)]

theorem SafeMemcmpLoop_one (s1 s2 : Nat → Nat) (n i : Nat) :
    SafeMemcmpLoop s1 s2 n i 1 = 1 := by
  induction n generalizing i with
  | zero => rfl
  | succ n ih => rw [SafeMemcmpLoop, ite_self, ih]

theorem SafeMemcmpLoop_ne (s1 s2 : Nat → Nat) (n i : Nat) (m : Int)
    (h : ¬ ∀ j, i ≤ j → j < i + n → s1 j = s2 j) : SafeMemcmpLoop s1 s2 n i m = 1 := by
  induction n generalizing i m with
  | zero => exact absurd (fun j h1 h2 => by omega) h
  | succ n ih =>
    rw [SafeMemcmpLoop]
    by_cases hi : s1 i = s2 i
    · apply ih
      intro hall
      apply h
      intro j h1 h2
      by_cases hj : j = i
      · subst hj; exact hi
      · exact hall j (by omega) (by omega)
    · simp only [ne_eq, hi, not_false_eq_true, ↓reduceIte]
      exact SafeMemcmpLoop_one s1 s2 n (i + 1)

theorem SafeMemcmpExamined_fst (s1 s2 : Nat → Nat) (n i : Nat) (m : Int) :
    (SafeMemcmpExamined s1 s2 n i m).1 = SafeMemcmpLoop s1 s2 n i m := by
  induction n generalizing i m with
  | zero => rfl
  | succ n ih => simp only [SafeMemcmpExamined, SafeMemcmpLoop, ih]

theorem SafeMemcmpExamined_snd (s1 s2 : Nat → Nat) (n i : Nat) (m : Int) :
    (SafeMemcmpExamined s1 s2 n i m).2 = List.range' i n := by
  induction n generalizing i m with
  | zero => rfl
  | succ n ih => simp only [SafeMemcmpExamined, ih, List.range'_succ]

/-- C20: `SafeMemcmp(s1, s2, n)` returns 0 exactly when the first `n` bytes of
`s1` and `s2` are equal (so 0 for `n = 0`) and 1 otherwise; its result is 0 or
1; and it compares the byte pairs of all the indices `0 .. n-1`, in that
order, whatever the bytes are. -/
theorem SafeMemcmp_constant_time (s1 s2 : Nat → Nat) (n : Nat) :
    (SafeMemcmp s1 s2 n = 0 ↔ ∀ j < n, s1 j = s2 j) ∧
    (SafeMemcmp s1 s2 n ≠ 0 → SafeMemcmp s1 s2 n = 1) ∧
    (SafeMemcmp s1 s2 n = 0 ∨ SafeMemcmp s1 s2 n = 1) ∧
    SafeMemcmp s1 s2 0 = 0 ∧
    (SafeMemcmpExamined s1 s2 n 0 0).1 = SafeMemcmp s1 s2 n ∧
    (SafeMemcmpExamined s1 s2 n 0 0).2 = List.range n := by
  have e : (∀ j, 0 ≤ j → j < 0 + n → s1 j = s2 j) ↔ ∀ j < n, s1 j = s2 j := by
    constructor
    · intro h j hj; exact h j (Nat.zero_le j) (by omega)
    · intro h j _ hj; exact h j (by omega)
  have hcases : (∀ j < n, s1 j = s2 j) ∧ SafeMemcmp s1 s2 n = 0 ∨
      (¬ ∀ j < n, s1 j = s2 j) ∧ SafeMemcmp s1 s2 n = 1 := by
    by_cases hall : ∀ j < n, s1 j = s2 j
    · exact Or.inl ⟨hall, SafeMemcmpLoop_eq s1 s2 n 0 0 (e.mpr hall)⟩
    · exact Or.inr ⟨hall, SafeMemcmpLoop_ne s1 s2 n 0 0 (fun h => hall (e.mp h))⟩
  refine ⟨?_, ?_, ?_, rfl, SafeMemcmpExamined_fst s1 s2 n 0 0, ?_⟩
  · rcases hcases with ⟨h1, h2⟩ | ⟨h1, h2⟩
    · exact ⟨fun _ => h1, fun _ => h2⟩
    · rw [h2]; simp only [one_ne_zero, false_iff]; exact h1
  · rcases hcases with ⟨_, h2⟩ | ⟨_, h2⟩
    · intro hne; exact absurd h2 hne
    · intro _; exact h2
  · rcases hcases with ⟨_, h2⟩ | ⟨_, h2⟩
    · exact Or.inl h2
    · exact Or.inr h2
  · rw [SafeMemcmpExamined_snd, List.range_eq_range']

/-- Witness for C20: two buffers of 3 bytes that differ in their first byte
only; the result is 1 and all three pairs are compared. -/
theorem SafeMemcmp_constant_time_witness :
    SafeMemcmp (fun i => i) (fun i => if i = 0 then 9 else i) 3 = 1 ∧
    (SafeMemcmpExamined (fun i => i) (fun i => if i = 0 then 9 else i) 3 0 0).2 = [0, 1, 2] :=
  ⟨(SafeMemcmp_constant_time (fun i => i) (fun i => if i = 0 then 9 else i) 3).2.1 (by decide),
   (SafeMemcmp_constant_time (fun i => i) (fun i => if i = 0 then 9 else i) 3).2.2.2.2.2⟩

theorem StatefulMemcpyRun_overrun (mem : Nat → Nat) (state : MemcpyState)
    (h : state.overrun = true) (lens : List Nat) :
    StatefulMemcpyRun mem state lens = (lens.map (fun _ => none), state) := by
  induction lens with
  | nil => rfl
  | cons len lens ih =>
    simp only [StatefulMemcpyRun, StatefulMemcpy, h, ↓reduceIte, ih, List.map_cons]

/-- C19: when `overrun` is already set or `len` exceeds `remaining_len`,
`StatefulMemcpy` returns NULL, leaves `overrun` set, copies nothing and leaves
`remaining_buf` and `remaining_len` as they were, and every later call
returns NULL too; otherwise it returns `dst` holding exactly the next `len`
bytes, which lie inside the remaining buffer, advances `remaining_buf` by
`len` and takes `len` off `remaining_len`. -/
theorem StatefulMemcpy_sticky_overrun (mem : Nat → Nat) (state : MemcpyState) (len : Nat) :
    (state.overrun = true ∨ len > state.remaining_len →
      (StatefulMemcpy mem state len).1 = none ∧
      (StatefulMemcpy mem state len).2.overrun = true ∧
      (StatefulMemcpy mem state len).2.remaining_buf = state.remaining_buf ∧
      (StatefulMemcpy mem state len).2.remaining_len = state.remaining_len ∧
      ∀ lens : List Nat,
        (StatefulMemcpyRun mem (StatefulMemcpy mem state len).2 lens).1
          = lens.map (fun _ => none)) ∧
    (state.overrun = false ∧ len ≤ state.remaining_len →
      (StatefulMemcpy mem state len).1
        = some ((List.range len).map (fun i => mem (state.remaining_buf + i))) ∧
      (∀ i < len, state.remaining_buf + i < state.remaining_buf + state.remaining_len) ∧
      (StatefulMemcpy mem state len).2.overrun = false ∧
      (StatefulMemcpy mem state len).2.remaining_buf = state.remaining_buf + len ∧
      (StatefulMemcpy mem state len).2.remaining_len + len = state.remaining_len) := by
  constructor
  · intro h
    have hov : (StatefulMemcpy mem state len).2.overrun = true := by
      unfold StatefulMemcpy
      by_cases h1 : state.overrun = true
      · simp [h1]
      · have h2 : len > state.remaining_len := by
          rcases h with h | h
          · exact absurd h h1
          · exact h
        simp [h1, h2]
    refine ⟨?_, hov, ?_, ?_, ?_⟩
    · unfold StatefulMemcpy
      by_cases h1 : state.overrun = true
      · simp [h1]
      · have h2 : len > state.remaining_len := by
          rcases h with h | h
          · exact absurd h h1
          · exact h
        simp [h1, h2]
    · unfold StatefulMemcpy
      by_cases h1 : state.overrun = true
      · simp [h1]
      · have h2 : len > state.remaining_len := by
          rcases h with h | h
          · exact absurd h h1
          · exact h
        simp [h1, h2]
    · unfold StatefulMemcpy
      by_cases h1 : state.overrun = true
      · simp [h1]
      · have h2 : len > state.remaining_len := by
          rcases h with h | h
          · exact absurd h h1
          · exact h
        simp [h1, h2]
    · intro lens
      rw [StatefulMemcpyRun_overrun mem _ hov lens]
  · rintro ⟨h1, h2⟩
    have h3 : ¬ (len > state.remaining_len) := by omega
    simp only [StatefulMemcpy, h1, Bool.false_eq_true, ↓reduceIte, h3, true_and]
    refine ⟨fun i hi => by omega, by omega⟩

/-- Witness for C19: a state with 4 bytes left is asked for 3 bytes, then for
2 bytes, then for 1 byte. -/
theorem StatefulMemcpy_sticky_overrun_witness :
    (StatefulMemcpy (fun a => a + 100) ⟨10, 4, false⟩ 3).1 = some [110, 111, 112] ∧
    (StatefulMemcpy (fun a => a + 100) ⟨10, 4, false⟩ 3).2 = ⟨13, 1, false⟩ ∧
    (StatefulMemcpy (fun a => a + 100) ⟨13, 1, false⟩ 2).1 = none ∧
    (StatefulMemcpyRun (fun a => a + 100) (StatefulMemcpy (fun a => a + 100) ⟨13, 1, false⟩ 2).2
      [1]).1 = [none] :=
  ⟨by decide, by decide,
    ((StatefulMemcpy_sticky_overrun (fun a => a + 100) ⟨13, 1, false⟩ 2).1
      (Or.inr (by decide))).1,
    ((StatefulMemcpy_sticky_overrun (fun a => a + 100) ⟨13, 1, false⟩ 2).1
      (Or.inr (by decide))).2.2.2.2 [1]⟩

/-- The overrun flag of `StatefulMemcpy_r` is sticky in the same way: a call
on a state with `overrun` set, or with `len` above `remaining_len`, returns
NULL, leaves `overrun` set and changes neither the memory nor the rest of
the state. -/
theorem StatefulMemcpy_r_sticky_overrun (mem : Nat → Nat) (state : MemcpyState)
    (src : Nat → Nat) (len : Nat) (h : state.overrun = true ∨ len > state.remaining_len) :
    (StatefulMemcpy_r mem state src len).1 = false ∧
    (StatefulMemcpy_r mem state src len).2.1 = { state with overrun := true } ∧
    (StatefulMemcpy_r mem state src len).2.2 = mem := by
  unfold StatefulMemcpy_r
  by_cases h1 : state.overrun = true
  · simp only [h1, ↓reduceIte, true_and]
    cases state
    simp_all
  · have h2 : len > state.remaining_len := by
      rcases h with h | h
      · exact absurd h h1
      · exact h
    simp [h1, h2]

/-! ## Property store reader and GPIO status: more theorems -/

theorem newGpioOps_append (w w1 : World) (ops : List GpioOp)
    (h : w1.gpioLog = w.gpioLog ++ ops) : newGpioOps w w1 = ops := by
  unfold newGpioOps
  rw [h, List.drop_left]

/-- C16: `VbGetGpioStatus` returns the first reading of the value file when it
is not -1, with no export; when it is -1 and the export control file cannot
be opened it returns -1 with no second reading; otherwise it writes the GPIO
number to the export file once, reads the value file once more and returns
that second reading as it is, -1 included.  A call reads the value file at
most twice and exports at most once. -/
theorem VbGetGpioStatus_single_retry (w : World) (gpio : Nat) :
    (w.gpioValue gpio ≠ -1 →
      (VbGetGpioStatus w gpio).1 = w.gpioValue gpio ∧
      newGpioOps w (VbGetGpioStatus w gpio).2 = [GpioOp.readValue gpio]) ∧
    (w.gpioValue gpio = -1 → w.exportOpens = false →
      (VbGetGpioStatus w gpio).1 = -1 ∧
      newGpioOps w (VbGetGpioStatus w gpio).2 = [GpioOp.readValue gpio, GpioOp.exportOpen]) ∧
    (w.gpioValue gpio = -1 → w.exportOpens = true →
      (VbGetGpioStatus w gpio).1 = w.gpioExported gpio ∧
      newGpioOps w (VbGetGpioStatus w gpio).2 =
        [GpioOp.readValue gpio, GpioOp.exportOpen, GpioOp.exportWrite gpio,
         GpioOp.readValue gpio]) ∧
    (newGpioOps w (VbGetGpioStatus w gpio).2).count (GpioOp.readValue gpio) ≤ 2 ∧
    (newGpioOps w (VbGetGpioStatus w gpio).2).count (GpioOp.exportWrite gpio) ≤ 1 := by
  have h1 : w.gpioValue gpio ≠ -1 →
      (VbGetGpioStatus w gpio).1 = w.gpioValue gpio ∧
      newGpioOps w (VbGetGpioStatus w gpio).2 = [GpioOp.readValue gpio] := by
    intro h
    refine ⟨by simp [VbGetGpioStatus, h], ?_⟩
    apply newGpioOps_append
    simp [VbGetGpioStatus, h]
  have h2 : w.gpioValue gpio = -1 → w.exportOpens = false →
      (VbGetGpioStatus w gpio).1 = -1 ∧
      newGpioOps w (VbGetGpioStatus w gpio).2 = [GpioOp.readValue gpio, GpioOp.exportOpen] := by
    intro h he
    refine ⟨by simp [VbGetGpioStatus, h, he], ?_⟩
    apply newGpioOps_append
    simp [VbGetGpioStatus, h, he]
  have h3 : w.gpioValue gpio = -1 → w.exportOpens = true →
      (VbGetGpioStatus w gpio).1 = w.gpioExported gpio ∧
      newGpioOps w (VbGetGpioStatus w gpio).2 =
        [GpioOp.readValue gpio, GpioOp.exportOpen, GpioOp.exportWrite gpio,
         GpioOp.readValue gpio] := by
    intro h he
    refine ⟨by simp [VbGetGpioStatus, h, he], ?_⟩
    apply newGpioOps_append
    simp [VbGetGpioStatus, h, he]
  refine ⟨h1, h2, h3, ?_, ?_⟩
  · by_cases h : w.gpioValue gpio = -1
    · cases he : w.exportOpens
      · rw [(h2 h he).2]; simp
      · rw [(h3 h he).2]; simp
    · rw [(h1 h).2]; simp
  · by_cases h : w.gpioValue gpio = -1
    · cases he : w.exportOpens
      · rw [(h2 h he).2]; simp
      · rw [(h3 h he).2]; simp
    · rw [(h1 h).2]; simp

/-- Witness for C16 on the sample machine: GPIO 5 reads 1, and on a machine
where it reads -1 until it is exported it reads 0 after the export. -/
theorem VbGetGpioStatus_single_retry_witness :
    (VbGetGpioStatus w0 5).1 = 1 ∧
    (VbGetGpioStatus { w0 with gpioValue := fun _ => -1 } 5).1 = 0 ∧
    newGpioOps { w0 with gpioValue := fun _ => -1 }
        (VbGetGpioStatus { w0 with gpioValue := fun _ => -1 } 5).2
      = [GpioOp.readValue 5, GpioOp.exportOpen, GpioOp.exportWrite 5, GpioOp.readValue 5] :=
  ⟨((VbGetGpioStatus_single_retry w0 5).1 (by decide)).1,
   ((VbGetGpioStatus_single_retry { w0 with gpioValue := fun _ => -1 } 5).2.2.1
      (by decide) (by decide)).1,
   ((VbGetGpioStatus_single_retry { w0 with gpioValue := fun _ => -1 } 5).2.2.1
      (by decide) (by decide)).2⟩

theorem ReadFdtBool_eq (w : World) (property : String) :
    ReadFdtBool w property =
      if (w.files (snprintfName (FDT_BASE_PATH ++ "/" ++ property))).isSome then 1 else 0 := by
  unfold ReadFdtBool
  cases h : w.files (snprintfName (FDT_BASE_PATH ++ "/" ++ property)) <;> simp [h]

/-- C11: `ReadFdtBool` returns 1 when the backing record exists and 0 when it
does not, so for every property store `VbGetArchPropertyInt` on `devsw_boot`,
`recoverysw_boot` and `wpsw_boot` returns 1 when the record exists and 0 when
it is absent, never -1, and changes nothing. -/
theorem boot_switch_absent_is_false (w : World) :
    (∀ property : String,
      (ReadFdtBool w property = 1 ↔
        w.files (snprintfName (FDT_BASE_PATH ++ "/" ++ property)) ≠ none) ∧
      (ReadFdtBool w property = 0 ↔
        w.files (snprintfName (FDT_BASE_PATH ++ "/" ++ property)) = none)) ∧
    VbGetArchPropertyInt w "devsw_boot"
      = (if (w.files (fdtFile "boot-developer-switch")).isSome then 1 else 0, w) ∧
    VbGetArchPropertyInt w "recoverysw_boot"
      = (if (w.files (fdtFile "boot-recovery-switch")).isSome then 1 else 0, w) ∧
    VbGetArchPropertyInt w "wpsw_boot"
      = (if (w.files (fdtFile "boot-write-protect-switch")).isSome then 1 else 0, w) ∧
    (VbGetArchPropertyInt w "devsw_boot").1 ≠ -1 ∧
    (VbGetArchPropertyInt w "recoverysw_boot").1 ≠ -1 ∧
    (VbGetArchPropertyInt w "wpsw_boot").1 ≠ -1 := by
  have hb : ∀ property : String,
      (ReadFdtBool w property = 1 ↔
        w.files (snprintfName (FDT_BASE_PATH ++ "/" ++ property)) ≠ none) ∧
      (ReadFdtBool w property = 0 ↔
        w.files (snprintfName (FDT_BASE_PATH ++ "/" ++ property)) = none) := by
    intro property
    rw [ReadFdtBool_eq]
    cases w.files (snprintfName (FDT_BASE_PATH ++ "/" ++ property)) <;> simp
  have p1 : snprintfName (FDT_BASE_PATH ++ "/" ++ "boot-developer-switch")
      = fdtFile "boot-developer-switch" := by decide
  have p2 : snprintfName (FDT_BASE_PATH ++ "/" ++ "boot-recovery-switch")
      = fdtFile "boot-recovery-switch" := by decide
  have p3 : snprintfName (FDT_BASE_PATH ++ "/" ++ "boot-write-protect-switch")
      = fdtFile "boot-write-protect-switch" := by decide
  have d1 : VbGetArchPropertyInt w "devsw_boot"
      = (if (w.files (fdtFile "boot-developer-switch")).isSome then 1 else 0, w) := by
    have a0 : strcasecmp "devsw_boot" "fmap_base" ≠ 0 := by decide
    have a1 : strcasecmp "devsw_boot" "devsw_boot" = 0 := by decide
    simp only [VbGetArchPropertyInt, a0, a1, ↓reduceIte, ReadFdtBool_eq, p1]
  have d2 : VbGetArchPropertyInt w "recoverysw_boot"
      = (if (w.files (fdtFile "boot-recovery-switch")).isSome then 1 else 0, w) := by
    have a0 : strcasecmp "recoverysw_boot" "fmap_base" ≠ 0 := by decide
    have a1 : strcasecmp "recoverysw_boot" "devsw_boot" ≠ 0 := by decide
    have a2 : strcasecmp "recoverysw_boot" "recoverysw_boot" = 0 := by decide
    simp only [VbGetArchPropertyInt, a0, a1, a2, ↓reduceIte, ReadFdtBool_eq, p2]
  have d3 : VbGetArchPropertyInt w "wpsw_boot"
      = (if (w.files (fdtFile "boot-write-protect-switch")).isSome then 1 else 0, w) := by
    have a0 : strcasecmp "wpsw_boot" "fmap_base" ≠ 0 := by decide
    have a1 : strcasecmp "wpsw_boot" "devsw_boot" ≠ 0 := by decide
    have a2 : strcasecmp "wpsw_boot" "recoverysw_boot" ≠ 0 := by decide
    have a3 : strcasecmp "wpsw_boot" "wpsw_boot" = 0 := by decide
    simp only [VbGetArchPropertyInt, a0, a1, a2, a3, ↓reduceIte, ReadFdtBool_eq, p3]
  refine ⟨hb, d1, d2, d3, ?_, ?_, ?_⟩
  · rw [d1]; split <;> simp
  · rw [d2]; split <;> simp
  · rw [d3]; split <;> simp

/-- Witness for C11 on the sample machine, which has no boot switch record,
and on the same machine with an empty record `boot-developer-switch`. -/
theorem boot_switch_absent_is_false_witness :
    (VbGetArchPropertyInt w0 "devsw_boot").1 = 0 ∧
    (VbGetArchPropertyInt
      { w0 with files := fun p => if p = fdtFile "boot-developer-switch" then some [] else none }
      "devsw_boot").1 = 1 :=
  ⟨by rw [(boot_switch_absent_is_false w0).2.1]; decide,
   by rw [(boot_switch_absent_is_false _).2.1]; decide⟩

theorem ntohl_short3 (b0 b1 b2 : Nat) (h0 : b0 < 256) (h1 : b1 < 256) (h2 : b2 < 256) :
    ntohl [b0, b1, b2] = be32 b0 b1 b2 0 := by
  simp [ntohl, be32, Nat.mod_eq_of_lt h0, Nat.mod_eq_of_lt h1, Nat.mod_eq_of_lt h2]

theorem ntohl_short2 (b0 b1 : Nat) (h0 : b0 < 256) (h1 : b1 < 256) :
    ntohl [b0, b1] = be32 b0 b1 0 0 := by
  simp [ntohl, be32, Nat.mod_eq_of_lt h0, Nat.mod_eq_of_lt h1]

theorem ntohl_short1 (b0 : Nat) (h0 : b0 < 256) : ntohl [b0] = be32 b0 0 0 0 := by
  simp [ntohl, be32, Nat.mod_eq_of_lt h0]

/-- C12 (counterexample): the record `fmap-offset` of the two bytes 0x12 0x34
is read as 0x12340000, not as 0x00001234: the bytes land in the first two
bytes of `data`, which `ntohl` takes as the most significant ones. -/
theorem ReadFdtValue_two_bytes_left_aligned :
    wShortRecord.files (snprintfName (FDT_BASE_PATH ++ "/" ++ "fmap-offset")) = some [18, 52] ∧
    ReadFdtValue wShortRecord "fmap-offset" = (0, some 305397760) ∧
    ReadFdtInt wShortRecord "fmap-offset" = 305397760 ∧
    (VbGetArchPropertyInt wShortRecord "fmap_base").1 = 305397760 ∧
    (305397760 : Int) = 18 * 16777216 + 52 * 65536 ∧
    (305397760 : Int) ≠ 18 * 256 + 52 := by
  decide

/-- C12 (amended): `ReadFdtValue` on a record that can be opened never fails;
for a record of 4 bytes or more it yields the 32-bit big-endian value of the
first 4 bytes, as an `int`; for a record of k < 4 bytes it yields the
big-endian value of the 4 bytes made of the k bytes present followed by
4 - k zero bytes (the bytes present are the most significant ones), and 0
for the empty record. -/
theorem ReadFdtValue_short_record (w : World) (property : String) :
    (∀ content, w.files (snprintfName (FDT_BASE_PATH ++ "/" ++ property)) = some content →
      (ReadFdtValue w property).1 = 0) ∧
    (∀ b0 b1 b2 b3 rest, b0 < 256 → b1 < 256 → b2 < 256 → b3 < 256 →
      w.files (snprintfName (FDT_BASE_PATH ++ "/" ++ property))
        = some (b0 :: b1 :: b2 :: b3 :: rest) →
      ReadFdtValue w property = (0, some (toInt32 (be32 b0 b1 b2 b3)))) ∧
    (∀ b0 b1 b2, b0 < 256 → b1 < 256 → b2 < 256 →
      w.files (snprintfName (FDT_BASE_PATH ++ "/" ++ property)) = some [b0, b1, b2] →
      ReadFdtValue w property = (0, some (toInt32 (be32 b0 b1 b2 0)))) ∧
    (∀ b0 b1, b0 < 256 → b1 < 256 →
      w.files (snprintfName (FDT_BASE_PATH ++ "/" ++ property)) = some [b0, b1] →
      ReadFdtValue w property = (0, some (toInt32 (be32 b0 b1 0 0)))) ∧
    (∀ b0, b0 < 256 →
      w.files (snprintfName (FDT_BASE_PATH ++ "/" ++ property)) = some [b0] →
      ReadFdtValue w property = (0, some (toInt32 (be32 b0 0 0 0)))) ∧
    (w.files (snprintfName (FDT_BASE_PATH ++ "/" ++ property)) = some [] →
      ReadFdtValue w property = (0, some 0)) := by
  refine ⟨?_, ?_, ?_, ?_, ?_, ?_⟩
  · intro content h
    simp [ReadFdtValue, h]
  · intro b0 b1 b2 b3 rest h0 h1 h2 h3 h
    simp only [ReadFdtValue, h, List.take_succ_cons, List.take_zero,
      ntohl_cons4 b0 b1 b2 b3 [] h0 h1 h2 h3]
  · intro b0 b1 b2 h0 h1 h2 h
    have e : List.take 4 [b0, b1, b2] = [b0, b1, b2] := rfl
    simp only [ReadFdtValue, h, e, ntohl_short3 b0 b1 b2 h0 h1 h2]
  · intro b0 b1 h0 h1 h
    have e : List.take 4 [b0, b1] = [b0, b1] := rfl
    simp only [ReadFdtValue, h, e, ntohl_short2 b0 b1 h0 h1]
  · intro b0 h0 h
    have e : List.take 4 [b0] = [b0] := rfl
    simp only [ReadFdtValue, h, e, ntohl_short1 b0 h0]
  · intro h
    simp only [ReadFdtValue, h]
    decide

/-- Witness for C12 (amended): the two-byte record of the sample machine. -/
theorem ReadFdtValue_short_record_witness :
    ReadFdtValue wShortRecord "fmap-offset" = (0, some (toInt32 (be32 18 52 0 0))) :=
  (ReadFdtValue_short_record wShortRecord "fmap-offset").2.2.2.1 18 52
    (by decide) (by decide) (by decide)

/-! ## Platform family classifier: termination and bounds -/

theorem familyWalkExamined_fst (compat : List Nat) (size : Nat) :
    ∀ (k s : Nat), size - s = k →
      (familyWalkExamined compat size s).1 = familyWalk compat size s := by
  intro k
  induction k using Nat.strong_induction_on with
  | _ k ih =>
    intro s hk
    rw [familyWalkExamined, familyWalk]
    by_cases hlt : s < size
    · simp only [hlt, ↓reduceIte]
      cases hm : matchFamily (cstrAt compat s) with
      | some p => rfl
      | none =>
        simp only
        exact ih (size - (s + (cstrAt compat s).length + 1)) (by omega) _ rfl
    · simp only [hlt, ↓reduceIte]

theorem getD_takeWhile_length (l : List Nat) (h : 0 ∈ l) :
    l.getD (l.takeWhile (fun b => b != 0)).length 1 = 0 := by
  induction l with
  | nil => cases h
  | cons b bs ih =>
    by_cases hb : b = 0
    · subst hb; simp
    · have hmem : 0 ∈ bs := by
        rcases List.mem_cons.mp h with e | e
        · exact absurd e.symm hb
        · exact e
      have hb' : (b != 0) = true := by simpa using hb
      simp only [List.takeWhile_cons, hb', ↓reduceIte, List.length_cons, List.getD_cons_succ]
      exact ih hmem

theorem familyWalkExamined_bounds (L : List Nat) (hL : L = [] ∨ L.getLast? = some 0) :
    ∀ (k s : Nat), L.length - s = k → s ≤ L.length →
      (familyWalkExamined (L ++ [0]) L.length s).2.length ≤ L.length - s ∧
      ∀ p ∈ (familyWalkExamined (L ++ [0]) L.length s).2,
        p.1 < L.length ∧ p.1 + p.2 < L.length ∧ (L ++ [0]).getD (p.1 + p.2) 1 = 0 := by
  intro k
  induction k using Nat.strong_induction_on with
  | _ k ih =>
    intro s hk hs
    rw [familyWalkExamined]
    by_cases hlt : s < L.length
    · have hL' : L.getLast? = some 0 := by
        rcases hL with e | e
        · subst e; simp at hlt
        · exact e
      have hmem := zero_mem_drop_of_getLast L s hlt hL'
      have hc : cstrAt (L ++ [0]) s = (L.drop s).takeWhile (fun b => b != 0) := by
        unfold cstrAt
        rw [List.drop_append_of_le_length hs]
        exact takeWhile_append_of_exists _ _ _ ⟨0, hmem, by simp⟩
      have hlen := takeWhile_length_lt_of_mem _ hmem
      simp only [List.length_drop] at hlen
      have hz : (L ++ [0]).getD (s + ((L.drop s).takeWhile (fun b => b != 0)).length) 1 = 0 := by
        have h1 := getD_takeWhile_length _ hmem
        rw [List.getD_eq_getElem?_getD, List.getElem?_drop] at h1
        rw [List.getD_eq_getElem?_getD, List.getElem?_append_left (by omega)]
        exact h1
      have hhead : s < L.length ∧
          s + ((L.drop s).takeWhile (fun b => b != 0)).length < L.length ∧
          (L ++ [0]).getD (s + ((L.drop s).takeWhile (fun b => b != 0)).length) 1 = 0 :=
        ⟨hlt, by omega, hz⟩
      simp only [hlt, ↓reduceIte, hc]
      cases hm : matchFamily ((L.drop s).takeWhile (fun b => b != 0)) with
      | some p =>
        simp only [List.length_singleton, List.mem_singleton]
        refine ⟨by omega, ?_⟩
        rintro p rfl
        exact hhead
      | none =>
        have := ih (L.length - (s + ((L.drop s).takeWhile (fun b => b != 0)).length + 1))
          (by omega) (s + ((L.drop s).takeWhile (fun b => b != 0)).length + 1) rfl (by omega)
        simp only [List.length_cons, List.mem_cons]
        refine ⟨by omega, ?_⟩
        rintro p (rfl | hp)
        · exact hhead
        · exact this.2 p hp
    · simp only [hlt, ↓reduceIte, List.length_nil, List.not_mem_nil, false_implies,
        implies_true, and_true]
      omega

/-- C18: for every blob, of every length, the walk of `ReadFdtPlatformFamily`
ends after at most `size` strings: the function is total, and each string it
examines starts at an offset below `size` and ends at a 0 byte at an offset
of at most `size - 1`, inside the buffer of `size + 1` bytes that
`ReadFdtBlock` returns. -/
theorem familyWalk_terminates_in_buffer (blob : List Nat) :
    classifyBuffer (blob ++ [0]) blob.length
      = familyWalk (walkedBuffer blob) blob.length 0 ∧
    (familyWalkExamined (walkedBuffer blob) blob.length 0).1
      = familyWalk (walkedBuffer blob) blob.length 0 ∧
    (walkedBuffer blob).length = blob.length + 1 ∧
    (familyWalkExamined (walkedBuffer blob) blob.length 0).2.length ≤ blob.length ∧
    ∀ p ∈ (familyWalkExamined (walkedBuffer blob) blob.length 0).2,
      p.1 < blob.length ∧ p.1 + p.2 ≤ blob.length - 1 ∧
      (walkedBuffer blob).getD (p.1 + p.2) 1 = 0 := by
  refine ⟨?_, familyWalkExamined_fst _ _ _ _ rfl, ?_, ?_⟩
  · unfold classifyBuffer walkedBuffer
    by_cases h : blob.length > 0 <;> simp [h]
  · unfold walkedBuffer
    by_cases h : blob.length > 0 <;> simp [h]
  · by_cases h : blob = []
    · subst h
      rw [familyWalkExamined]
      simp
    · have hw : walkedBuffer blob = forceLast blob ++ [0] := by
        unfold walkedBuffer
        simp only [List.length_pos.mpr h, ↓reduceIte]
        exact set_append_last blob h
      have hlen : (forceLast blob).length = blob.length := by simp [forceLast]
      have := familyWalkExamined_bounds (forceLast blob) (forceLast_terminated blob)
        (forceLast blob).length 0 (by simp) (by simp)
      rw [hlen] at this
      rw [hw]
      refine ⟨by simpa using this.1, ?_⟩
      intro p hp
      obtain ⟨h1, h2, h3⟩ := this.2 p hp
      exact ⟨h1, by omega, h3⟩

/-- Witness for C18: a blob without 0 byte, a blob of one byte, and a blob
with two 0 bytes in a row; in each the strings examined end at or before the
last byte of the blob. -/
theorem familyWalk_terminates_in_buffer_witness :
    (familyWalkExamined (walkedBuffer [65, 66, 67]) 3 0).2.length ≤ 3 ∧
    (familyWalkExamined (walkedBuffer [65]) 1 0).2.length ≤ 1 ∧
    ∀ p ∈ (familyWalkExamined (walkedBuffer [65, 0, 0, 66]) 4 0).2,
      p.1 < 4 ∧ p.1 + p.2 ≤ 4 - 1 ∧ (walkedBuffer [65, 0, 0, 66]).getD (p.1 + p.2) 1 = 0 :=
  ⟨(familyWalk_terminates_in_buffer [65, 66, 67]).2.2.2.1,
   (familyWalk_terminates_in_buffer [65]).2.2.2.1,
   (familyWalk_terminates_in_buffer [65, 0, 0, 66]).2.2.2.2⟩

/-! ## NV context accessor: more theorems -/

theorem newOps_append (w w1 : World) (ops : List DevOp)
    (h : w1.log = w.log ++ ops) : newOps w w1 = ops := by
  unfold newOps
  rw [h, List.drop_left]

/-- C13 (counterexample): on the sample machine with a device that delivers 4
bytes to `read`, `VbWriteNvStorage` goes on: it issues the `write` and the
flush, returns 0, and byte 4 of the sector, which was 0 and was never read,
now holds a byte of the uninitialised scratch array. -/
theorem VbWriteNvStorage_short_read_still_writes :
    wShortRead.readRes = 4 ∧
    (VbWriteNvStorage wShortRead ⟨sampleBlob⟩).map (fun r => (r.1, r.2.log))
      = some (0, [DevOp.open 2 true, DevOp.lseek 3 1024, DevOp.read 3, DevOp.lseek 3 1024,
          DevOp.write 3, DevOp.flush 3, DevOp.close 3]) ∧
    wShortRead.disk 2 1028 = 0 ∧
    (VbWriteNvStorage wShortRead ⟨sampleBlob⟩).map (fun r => r.2.disk 2 1028) = some 170 := by
  decide

/-- C13 (amended): with a device found, a geometry inside the sector and the
device opened, `VbWriteNvStorage` stops before any `write` exactly when the
`read` of the existing sector reports a non-positive count: no `write` and no
flush is issued and the devices keep their content.  When `read` reports a
positive count, short of 512 or not, and `write` accepts bytes, the call goes
on to seek back, write and flush, and what it writes is the scratch sector
with the blob stored in it, whose bytes behind the count read are the
indeterminate bytes of the array. -/
theorem VbWriteNvStorage_stops_on_nonpositive_read (w : World) (B : List Nat) (fd : Nat)
    (hdev : 0 ≤ FindEmmcDev w)
    (hsize : nvSize w = (B.length : Int))
    (hoff : 0 ≤ nvOffset w) (hbound : nvOffset w + nvSize w ≤ (SECTOR_SIZE : Int))
    (hopen : w.openFd = some fd) :
    (w.readRes ≤ 0 →
      ∃ w1, VbWriteNvStorage w ⟨B⟩ = some (if w.readRes < 0 then -1 else 0, w1) ∧
        w1.disk = w.disk ∧
        newOps w w1 = [DevOp.open (FindEmmcDev w) true, DevOp.lseek fd (nvSeek w),
          DevOp.read fd] ++ (if (fd : Int) > 0 then [DevOp.close fd] else [])) ∧
    (0 < w.readRes → 0 < w.writeRes →
      ∃ w1, VbWriteNvStorage w ⟨B⟩ = some (if w.flushRes < 0 then w.flushRes else 0, w1) ∧
        w1.disk = diskAfterWrite w B (nvOffset w).toNat ∧
        newOps w w1 = [DevOp.open (FindEmmcDev w) true, DevOp.lseek fd (nvSeek w),
          DevOp.read fd, DevOp.lseek fd (nvSeek w), DevOp.write fd, DevOp.flush fd]
          ++ (if (fd : Int) > 0 then [DevOp.close fd] else [])) := by
  have h512 : SECTOR_SIZE = 512 := rfl
  obtain ⟨o, ho⟩ : ∃ o : Nat, nvOffset w = (o : Int) := ⟨(nvOffset w).toNat, by omega⟩
  have hb : o + B.length ≤ SECTOR_SIZE := by omega
  constructor
  · intro hr
    have hgeo : ¬ (nvSize w ≠ ((VbNvContext.mk B).raw.length : Int) ∨
        toInt32 (nvSize w + nvOffset w) > (SECTOR_SIZE : Int)) := by
      rw [hsize, ho]
      exact geometry_accepted B.length o B.length rfl hb
    obtain ⟨w1, h1, h2, h3⟩ := VbWriteNvStorage_read_phase_fails w ⟨B⟩ fd hdev hgeo hopen hr
    refine ⟨w1, h1, h2, ?_⟩
    apply newOps_append
    rw [h3, List.append_assoc]
  · intro hr hwr
    obtain ⟨w1, h1, h2, _, _, _, h5⟩ :=
      VbWriteNvStorage_writes w B fd o B.length hdev ho hsize rfl hb hopen hr hwr
    refine ⟨w1, h1, ?_, ?_⟩
    · rw [h2, ho]; rfl
    · apply newOps_append
      rw [h5, List.append_assoc]

/-- Witness for C13 (amended) on the sample machine: a device that reports
end of device to `read`, and a device that delivers 4 bytes. -/
theorem VbWriteNvStorage_stops_on_nonpositive_read_witness :
    (∃ w1, VbWriteNvStorage wReadEof ⟨sampleBlob⟩ = some (0, w1) ∧
      w1.disk = wReadEof.disk ∧
      newOps wReadEof w1 = [DevOp.open 2 true, DevOp.lseek 3 1024, DevOp.read 3, DevOp.close 3]) ∧
    (∃ w1, VbWriteNvStorage wShortRead ⟨sampleBlob⟩ = some (0, w1) ∧
      w1.disk = diskAfterWrite wShortRead sampleBlob 8 ∧
      newOps wShortRead w1 = [DevOp.open 2 true, DevOp.lseek 3 1024, DevOp.read 3,
        DevOp.lseek 3 1024, DevOp.write 3, DevOp.flush 3, DevOp.close 3]) :=
  ⟨(VbWriteNvStorage_stops_on_nonpositive_read wReadEof sampleBlob 3
      (by decide) (by decide) (by decide) (by decide) rfl).1 (by decide),
   (VbWriteNvStorage_stops_on_nonpositive_read wShortRead sampleBlob 3
      (by decide) (by decide) (by decide) (by decide) rfl).2 (by decide) (by decide)⟩

/-- A sector address beyond the end of the device breaks the frame as well: on
the sample machine with the block address 2049, `lseek` to byte 1049088 of the
device of 1048576 bytes is refused twice, `VbWriteNvStorage` returns 0, and the
sector it has rewritten is sector 1, where byte 520 now holds the first byte
of the blob. -/
theorem VbWriteNvStorage_frame_broken_by_seek_beyond_device :
    nvSeek wFarLba = 1049088 ∧ wFarLba.diskSize (FindEmmcDev wFarLba) = 1048576 ∧
    (VbWriteNvStorage wFarLba ⟨sampleBlob⟩).map (fun r => (r.1, r.2.log))
      = some (0, [DevOp.open 2 true, DevOp.lseek 3 1049088, DevOp.read 3,
          DevOp.lseek 3 1049088, DevOp.write 3, DevOp.flush 3, DevOp.close 3]) ∧
    wFarLba.disk 2 520 = 0 ∧
    (VbWriteNvStorage wFarLba ⟨sampleBlob⟩).map (fun r => r.2.disk 2 520) = some 1 := by
  decide

/-- C15 (the code at the failing input): on the sample machine on which `open`
yields the descriptor 0, both accessors return 0 without any `close`: the
exit path closes only descriptors above 0, and descriptor 0 is still open on
`mmcblk2` when the call has returned. -/
theorem nv_descriptor_zero_never_closed :
    wFdZero.openFd = some 0 ∧
    (VbReadNvStorage wFdZero ⟨sampleBlob⟩).map (fun r => (r.1, r.2.2.log, r.2.2.fds 0))
      = some (0, [DevOp.open 2 false, DevOp.lseek 0 1024, DevOp.read 0], some ⟨2, 1536⟩) ∧
    (VbWriteNvStorage wFdZero ⟨sampleBlob⟩).map (fun r => (r.1, r.2.log, r.2.fds 0))
      = some (0, [DevOp.open 2 true, DevOp.lseek 0 1024, DevOp.read 0, DevOp.lseek 0 1024,
          DevOp.write 0, DevOp.flush 0], some ⟨2, 1536⟩) := by
  decide

/-- C17 (the code at the failing input): without offset record the offset is
-1 and the size 16; the `int` sum 15 does not exceed 512, so the validation
lets the geometry pass (the `open` is issued), and both calls then copy 16
bytes from or to `sector - 1`, outside the scratch sector. -/
theorem nv_negative_offset_accepted :
    nvOffset wNoOffset = -1 ∧ nvSize wNoOffset = 16 ∧ sampleBlob.length = 16 ∧
    toInt32 (nvSize wNoOffset + nvOffset wNoOffset) = 15 ∧
    (VbReadNvStorage { wNoOffset with openFd := none } ⟨sampleBlob⟩).map
      (fun r => (r.1, r.2.2.log)) = some (-1, [DevOp.open 2 false]) ∧
    (VbWriteNvStorage { wNoOffset with openFd := none } ⟨sampleBlob⟩).map
      (fun r => (r.1, r.2.log)) = some (-1, [DevOp.open 2 true]) ∧
    sectorLoad wNoOffset.stack (nvOffset wNoOffset) (nvSize wNoOffset) = none ∧
    VbReadNvStorage wNoOffset ⟨sampleBlob⟩ = none ∧
    VbWriteNvStorage wNoOffset ⟨sampleBlob⟩ = none := by
  refine ⟨by decide, by decide, by decide, by decide, by decide, by decide, by decide, rfl, rfl⟩

theorem closeOut_pos (w : World) (fd : Nat) (hfd : 0 < fd) :
    (closeOut w fd).log = w.log ++ [DevOp.close fd] ∧ (closeOut w fd).fds fd = none := by
  have h : ((fd : Int) > 0) := by omega
  simp [closeOut, h, sysClose, logOp]

/-- A descriptor above 0 is closed once on every path of `VbReadNvStorage`
that returns: either the call issued no device operation at all, or it
issued exactly one `close` of the descriptor, which is not open
afterwards. -/
theorem VbReadNvStorage_closes_positive_fd (w : World) (vnc vnc1 : VbNvContext) (w1 : World)
    (fd : Nat) (rv : Int) (hopen : w.openFd = some fd) (hfd : 0 < fd)
    (h : VbReadNvStorage w vnc = some (rv, vnc1, w1)) :
    newOps w w1 = [] ∨
      ((newOps w w1).count (DevOp.close fd) = 1 ∧ w1.fds fd = none) := by
  have hfd1 : ¬ ((fd : Int) = -1) := by omega
  unfold VbReadNvStorage at h
  simp only [sysOpen, hopen, hfd1, ↓reduceIte] at h
  split at h
  · injection h with h
    have e := (Prod.mk.inj (Prod.mk.inj h).2).2
    subst e
    left; simp [newOps]
  · split at h
    · injection h with h
      have e := (Prod.mk.inj (Prod.mk.inj h).2).2
      subst e
      left; simp [newOps]
    · split at h
      · injection h with h
        have e := (Prod.mk.inj (Prod.mk.inj h).2).2
        subst e
        right
        obtain ⟨h1, h2⟩ := closeOut_pos (sysRead (sysLseek
          { logOp w (DevOp.open (FindEmmcDev w) false) with
            fds := Function.update w.fds (fd : Int) (some ⟨FindEmmcDev w, 0⟩) } fd
          (toInt32 (ReadFdtInt w "nonvolatile-context-lba" * (SECTOR_SIZE : Int))))
          fd w.stack SECTOR_SIZE).2.2 fd hfd
        refine ⟨?_, h2⟩
        rw [newOps_append w _ _ (by
          rw [h1]
          simp only [sysRead, sysLseek, logOp, Function.update_same, List.append_assoc]
          rfl)]
        simp
      · split at h
        · cases h
        · injection h with h
          have e := (Prod.mk.inj (Prod.mk.inj h).2).2
          subst e
          right
          obtain ⟨h1, h2⟩ := closeOut_pos (sysRead (sysLseek
            { logOp w (DevOp.open (FindEmmcDev w) false) with
              fds := Function.update w.fds (fd : Int) (some ⟨FindEmmcDev w, 0⟩) } fd
            (toInt32 (ReadFdtInt w "nonvolatile-context-lba" * (SECTOR_SIZE : Int))))
            fd w.stack SECTOR_SIZE).2.2 fd hfd
          refine ⟨?_, h2⟩
          rw [newOps_append w _ _ (by
            rw [h1]
            simp only [sysRead, sysLseek, logOp, Function.update_same, List.append_assoc]
            rfl)]
          simp

theorem closed_once_of_log (w W : World) (fd : Nat) (hfd : 0 < fd) (ops : List DevOp)
    (hlog : W.log = w.log ++ ops) (hno : ops.count (DevOp.close fd) = 0) :
    (newOps w (closeOut W fd)).count (DevOp.close fd) = 1 ∧ (closeOut W fd).fds fd = none := by
  obtain ⟨h1, h2⟩ := closeOut_pos W fd hfd
  refine ⟨?_, h2⟩
  rw [newOps_append w _ (ops ++ [DevOp.close fd]) (by rw [h1, hlog, List.append_assoc])]
  simp [List.count_append, hno]

/-- A descriptor above 0 is closed once on every path of `VbWriteNvStorage`
that returns: either the call issued no device operation at all, or it
issued exactly one `close` of the descriptor, which is not open
afterwards. -/
theorem VbWriteNvStorage_closes_positive_fd (w : World) (vnc : VbNvContext) (w1 : World)
    (fd : Nat) (rv : Int) (hopen : w.openFd = some fd) (hfd : 0 < fd)
    (h : VbWriteNvStorage w vnc = some (rv, w1)) :
    newOps w w1 = [] ∨
      ((newOps w w1).count (DevOp.close fd) = 1 ∧ w1.fds fd = none) := by
  have hfd1 : ¬ ((fd : Int) = -1) := by omega
  unfold VbWriteNvStorage at h
  simp only [sysOpen, hopen, hfd1, ↓reduceIte] at h
  split at h
  · injection h with h
    have e := (Prod.mk.inj h).2
    subst e
    left; simp [newOps]
  · split at h
    · injection h with h
      have e := (Prod.mk.inj h).2
      subst e
      left; simp [newOps]
    · split at h
      · injection h with h
        have e := (Prod.mk.inj h).2
        subst e
        exact Or.inr (closed_once_of_log w _ fd hfd _
          (by simp only [sysRead, sysLseek, logOp, Function.update_same, List.append_assoc]; rfl)
          (by simp))
      · split at h
        · cases h
        · split at h
          · injection h with h
            have e := (Prod.mk.inj h).2
            subst e
            exact Or.inr (closed_once_of_log w _ fd hfd _
              (by simp only [sysWrite, sysRead, sysLseek, logOp, Function.update_same,
                    List.append_assoc]; rfl)
              (by simp))
          · split at h
            · injection h with h
              have e := (Prod.mk.inj h).2
              subst e
              exact Or.inr (closed_once_of_log w _ fd hfd _
                (by simp only [sysFlush, sysWrite, sysRead, sysLseek, logOp,
                      Function.update_same, List.append_assoc]; rfl)
                (by simp))
            · injection h with h
              have e := (Prod.mk.inj h).2
              subst e
              exact Or.inr (closed_once_of_log w _ fd hfd _
                (by simp only [sysFlush, sysWrite, sysRead, sysLseek, logOp,
                      Function.update_same, List.append_assoc]; rfl)
                (by simp))

end CrosSystemArm
